import Mathlib

/-!
Shallow embedding of the Phase-1 rotational-unfolding enumerator (E1) of the
RotationalUnfolding repository, together with its JSONL output helpers, the
JSON polyhedron loader and the symmetry auto-detection, and proofs of the
behavioural properties stated in the natural-language specification.

Doubles are modelled as exact rationals.  The platform's transcendental
library functions (`std::sin`, `std::cos`, `std::tan`, `std::sqrt`) are kept
abstract as a record of rational functions (`FloatOps`); every theorem below
is proved for an arbitrary such record, hence in particular for the intended
real-valued interpretation.  Control flow, state threading and all
comparisons mirror the C++ source line by line.
-/

/-! ## GeometryUtil.hpp -/

/-- The abstract numeric library: the four `<cmath>` functions the source
uses.  The C++ code computes with `double` approximations of these; the
embedding quantifies over the functions instead. -/
structure FloatOps where
  sin : ℚ → ℚ
  cos : ℚ → ℚ
  tan : ℚ → ℚ
  sqrt : ℚ → ℚ

/-- `GeometryUtil::PI`, the source's 15-decimal constant. -/
def PIq : ℚ := 3.141592653589793

/-- `GeometryUtil::buffer = 0.01`. -/
def buffer : ℚ := 0.01

/-- `GeometryUtil::circumradius(gon) = 1 / (2 * sin(PI / gon))`. -/
def circumradius (F : FloatOps) (gon : ℤ) : ℚ :=
  1 / (2 * F.sin (PIq / gon))

/-- `GeometryUtil::inradius(gon) = 1 / (2 * tan(PI / gon))`. -/
def inradius (F : FloatOps) (gon : ℤ) : ℚ :=
  1 / (2 * F.tan (PIq / gon))

/-- `GeometryUtil::getDistanceFromOrigin(x, y) = sqrt(x*x + y*y)`. -/
def getDistanceFromOrigin (F : FloatOps) (x y : ℚ) : ℚ :=
  F.sqrt (x * x + y * y)

/-- The first loop of `GeometryUtil::normalizeAngle`:
`while (degree < -180.0) degree += 360.0`.  The closed form adds `360`
exactly as many times as the loop iterates; `normalizeUp_loop` below proves
the loop's defining equation. -/
def normalizeUp (d : ℚ) : ℚ :=
  d + 360 * ((⌈((-180 : ℚ) - d) / 360⌉).toNat : ℚ)

/-- The second loop of `GeometryUtil::normalizeAngle`:
`while (degree > 180.0) degree -= 360.0`. -/
def normalizeDown (d : ℚ) : ℚ :=
  d - 360 * ((⌈(d - (180 : ℚ)) / 360⌉).toNat : ℚ)

/-- `GeometryUtil::normalizeAngle`: both loops in source order. -/
def normalizeAngle (d : ℚ) : ℚ := normalizeDown (normalizeUp d)

/-- `normalizeUp` satisfies the defining equation of the C++ `while` loop. -/
theorem normalizeUp_loop (d : ℚ) :
    normalizeUp d = if d < -180 then normalizeUp (d + 360) else d := by
  unfold normalizeUp
  split
  · rename_i h
    have hpos : 0 < ⌈((-180 : ℚ) - d) / 360⌉ :=
      Int.ceil_pos.mpr (div_pos (by linarith) (by norm_num))
    have hceil : ⌈((-180 : ℚ) - (d + 360)) / 360⌉ = ⌈((-180 : ℚ) - d) / 360⌉ - 1 := by
      rw [show ((-180 : ℚ) - (d + 360)) / 360 = ((-180 : ℚ) - d) / 360 - 1 by ring,
        Int.ceil_sub_one]
    have h1 : ((⌈((-180 : ℚ) - d) / 360⌉).toNat : ℚ) = ((⌈((-180 : ℚ) - d) / 360⌉ : ℤ) : ℚ) := by
      exact_mod_cast Int.toNat_of_nonneg hpos.le
    have h2 : ((⌈((-180 : ℚ) - d) / 360⌉ - 1).toNat : ℚ)
        = ((⌈((-180 : ℚ) - d) / 360⌉ : ℤ) : ℚ) - 1 := by
      have hge : (0 : ℤ) ≤ ⌈((-180 : ℚ) - d) / 360⌉ - 1 := by omega
      exact_mod_cast Int.toNat_of_nonneg hge
    rw [hceil, h1, h2]; ring
  · rename_i h
    have h0 : ((-180 : ℚ) - d) / 360 ≤ 0 := by
      apply div_nonpos_of_nonpos_of_nonneg <;> [linarith; norm_num]
    have hz : (⌈((-180 : ℚ) - d) / 360⌉).toNat = 0 :=
      Int.toNat_of_nonpos (Int.ceil_le.mpr (by exact_mod_cast h0))
    rw [hz]; push_cast; ring

/-- `normalizeDown` satisfies the defining equation of the C++ `while` loop. -/
theorem normalizeDown_loop (d : ℚ) :
    normalizeDown d = if 180 < d then normalizeDown (d - 360) else d := by
  unfold normalizeDown
  split
  · rename_i h
    have hpos : 0 < ⌈(d - (180 : ℚ)) / 360⌉ :=
      Int.ceil_pos.mpr (div_pos (by linarith) (by norm_num))
    have hceil : ⌈(d - 360 - (180 : ℚ)) / 360⌉ = ⌈(d - (180 : ℚ)) / 360⌉ - 1 := by
      rw [show (d - 360 - (180 : ℚ)) / 360 = (d - (180 : ℚ)) / 360 - 1 by ring,
        Int.ceil_sub_one]
    have h1 : ((⌈(d - (180 : ℚ)) / 360⌉).toNat : ℚ) = ((⌈(d - (180 : ℚ)) / 360⌉ : ℤ) : ℚ) := by
      exact_mod_cast Int.toNat_of_nonneg hpos.le
    have h2 : ((⌈(d - (180 : ℚ)) / 360⌉ - 1).toNat : ℚ)
        = ((⌈(d - (180 : ℚ)) / 360⌉ : ℤ) : ℚ) - 1 := by
      have hge : (0 : ℤ) ≤ ⌈(d - (180 : ℚ)) / 360⌉ - 1 := by omega
      exact_mod_cast Int.toNat_of_nonneg hge
    rw [hceil, h1, h2]; ring
  · rename_i h
    have h0 : (d - (180 : ℚ)) / 360 ≤ 0 := by
      apply div_nonpos_of_nonpos_of_nonneg <;> [linarith; norm_num]
    have hz : (⌈(d - (180 : ℚ)) / 360⌉).toNat = 0 :=
      Int.toNat_of_nonpos (Int.ceil_le.mpr (by exact_mod_cast h0))
    rw [hz]; push_cast; ring

theorem normalizeUp_lb (d : ℚ) : -180 ≤ normalizeUp d := by
  unfold normalizeUp
  rcases le_or_lt (-180 : ℚ) d with h | h
  · have h0 : ((-180 : ℚ) - d) / 360 ≤ 0 := by
      apply div_nonpos_of_nonpos_of_nonneg <;> [linarith; norm_num]
    have hz : (⌈((-180 : ℚ) - d) / 360⌉).toNat = 0 :=
      Int.toNat_of_nonpos (Int.ceil_le.mpr (by exact_mod_cast h0))
    rw [hz]; push_cast; linarith
  · have hpos : 0 < ⌈((-180 : ℚ) - d) / 360⌉ :=
      Int.ceil_pos.mpr (div_pos (by linarith) (by norm_num))
    have h1 : ((⌈((-180 : ℚ) - d) / 360⌉).toNat : ℚ) = ((⌈((-180 : ℚ) - d) / 360⌉ : ℤ) : ℚ) := by
      exact_mod_cast Int.toNat_of_nonneg hpos.le
    have h2 : ((-180 : ℚ) - d) / 360 ≤ ((⌈((-180 : ℚ) - d) / 360⌉ : ℤ) : ℚ) := Int.le_ceil _
    rw [h1]
    nlinarith [h2]

theorem normalizeDown_ub (d : ℚ) : normalizeDown d ≤ 180 := by
  unfold normalizeDown
  rcases le_or_lt d (180 : ℚ) with h | h
  · have h0 : (d - (180 : ℚ)) / 360 ≤ 0 := by
      apply div_nonpos_of_nonpos_of_nonneg <;> [linarith; norm_num]
    have hz : (⌈(d - (180 : ℚ)) / 360⌉).toNat = 0 :=
      Int.toNat_of_nonpos (Int.ceil_le.mpr (by exact_mod_cast h0))
    rw [hz]; push_cast; linarith
  · have hpos : 0 < ⌈(d - (180 : ℚ)) / 360⌉ :=
      Int.ceil_pos.mpr (div_pos (by linarith) (by norm_num))
    have h1 : ((⌈(d - (180 : ℚ)) / 360⌉).toNat : ℚ) = ((⌈(d - (180 : ℚ)) / 360⌉ : ℤ) : ℚ) := by
      exact_mod_cast Int.toNat_of_nonneg hpos.le
    have h2 : (d - (180 : ℚ)) / 360 ≤ ((⌈(d - (180 : ℚ)) / 360⌉ : ℤ) : ℚ) := Int.le_ceil _
    rw [h1]
    nlinarith [h2]

theorem normalizeDown_lb (d : ℚ) (hd : -180 ≤ d) : -180 ≤ normalizeDown d := by
  unfold normalizeDown
  rcases le_or_lt d (180 : ℚ) with h | h
  · have h0 : (d - (180 : ℚ)) / 360 ≤ 0 := by
      apply div_nonpos_of_nonpos_of_nonneg <;> [linarith; norm_num]
    have hz : (⌈(d - (180 : ℚ)) / 360⌉).toNat = 0 :=
      Int.toNat_of_nonpos (Int.ceil_le.mpr (by exact_mod_cast h0))
    rw [hz]; push_cast; linarith
  · have hpos : 0 < ⌈(d - (180 : ℚ)) / 360⌉ :=
      Int.ceil_pos.mpr (div_pos (by linarith) (by norm_num))
    have h1 : ((⌈(d - (180 : ℚ)) / 360⌉).toNat : ℚ) = ((⌈(d - (180 : ℚ)) / 360⌉ : ℤ) : ℚ) := by
      exact_mod_cast Int.toNat_of_nonneg hpos.le
    have h2 : ((⌈(d - (180 : ℚ)) / 360⌉ : ℤ) : ℚ) < (d - (180 : ℚ)) / 360 + 1 :=
      Int.ceil_lt_add_one _
    rw [h1]
    nlinarith [h2]

/-- After `normalizeAngle` the angle lies in `[-180, 180]`, as the source's
comment promises. -/
theorem normalizeAngle_bounds (d : ℚ) :
    -180 ≤ normalizeAngle d ∧ normalizeAngle d ≤ 180 :=
  ⟨normalizeDown_lb _ (normalizeUp_lb d), normalizeDown_ub _⟩

/-- `normalizeAngle` only shifts by whole multiples of 360 degrees. -/
theorem normalizeAngle_congr (d : ℚ) : ∃ k : ℤ, normalizeAngle d = d + 360 * k := by
  refine ⟨((⌈((-180 : ℚ) - d) / 360⌉).toNat : ℤ)
    - ((⌈(normalizeUp d - (180 : ℚ)) / 360⌉).toNat : ℤ), ?_⟩
  have h : normalizeUp d = d + 360 * ((⌈((-180 : ℚ) - d) / 360⌉).toNat : ℚ) := rfl
  unfold normalizeAngle normalizeDown
  rw [h]
  push_cast
  ring

/-- On inputs in `[-540, 180)` — the only inputs the search's incremental
angle updates produce — `normalizeAngle` is one conditional 360-shift. -/
theorem normalizeAngle_window (v : ℚ) (h1 : -540 ≤ v) (h2 : v < 180) :
    normalizeAngle v = if v < -180 then v + 360 else v := by
  unfold normalizeAngle
  split
  · rename_i h
    have hc : ⌈((-180 : ℚ) - v) / 360⌉ = 1 := by
      rw [Int.ceil_eq_iff]
      constructor
      · push_cast
        rw [lt_div_iff (by norm_num : (0:ℚ) < 360)]; linarith
      · push_cast
        rw [div_le_iff (by norm_num : (0:ℚ) < 360)]; linarith
    have hup : normalizeUp v = v + 360 := by
      unfold normalizeUp; rw [hc]; norm_num
    rw [hup]
    have h0 : (v + 360 - (180 : ℚ)) / 360 ≤ 0 := by
      apply div_nonpos_of_nonpos_of_nonneg <;> [linarith; norm_num]
    unfold normalizeDown
    have hz : (⌈(v + 360 - (180 : ℚ)) / 360⌉).toNat = 0 :=
      Int.toNat_of_nonpos (Int.ceil_le.mpr (by exact_mod_cast h0))
    rw [hz]; push_cast; ring
  · rename_i h
    push_neg at h
    have hup : normalizeUp v = v := by
      unfold normalizeUp
      have h0 : ((-180 : ℚ) - v) / 360 ≤ 0 := by
        apply div_nonpos_of_nonpos_of_nonneg <;> [linarith; norm_num]
      have hz : (⌈((-180 : ℚ) - v) / 360⌉).toNat = 0 :=
        Int.toNat_of_nonpos (Int.ceil_le.mpr (by exact_mod_cast h0))
      rw [hz]; push_cast; ring
    rw [hup]
    unfold normalizeDown
    have h0 : (v - (180 : ℚ)) / 360 ≤ 0 := by
      apply div_nonpos_of_nonpos_of_nonneg <;> [linarith; norm_num]
    have hz : (⌈(v - (180 : ℚ)) / 360⌉).toNat = 0 :=
      Int.toNat_of_nonpos (Int.ceil_le.mpr (by exact_mod_cast h0))
    rw [hz]; push_cast; ring

/-! ## Coordinate snapping and JsonUtil.hpp -/

/-- The search's floating-point noise suppression:
`if (std::fabs(v) < 1e-10) v = 0.0;`. -/
def snap (v : ℚ) : ℚ := if |v| < 1e-10 then 0 else v

/-- `JsonUtil::roundTo6Decimals`: scale by `1e6`, apply `floor(v + 0.5)` for
non-negative and `ceil(v - 0.5)` for negative values, scale back. -/
def roundTo6Decimals (value : ℚ) : ℚ :=
  let scaled : ℚ := value * 1000000
  let rounded : ℚ := if 0 ≤ scaled then ((⌊scaled + 0.5⌋ : ℤ) : ℚ) else ((⌈scaled - 0.5⌉ : ℤ) : ℚ)
  rounded / 1000000

/-- Rounding to six decimal places with ties rounded half away from zero,
written as the specification words it: round the magnitude half up and
restore the sign. -/
def roundHalfAwayFromZero6 (v : ℚ) : ℚ :=
  if 0 ≤ v then ((⌊v * 1000000 + 1 / 2⌋ : ℤ) : ℚ) / 1000000
  else -(((⌊-v * 1000000 + 1 / 2⌋ : ℤ) : ℚ) / 1000000)

/-- The numeric fields of one `faces` entry as `JsonUtil::writeJsonlRecord`
prints them: the angle is normalised to `[-180, 180]` first, then all three
values are rounded to six decimals. -/
def writeFaceNumbers (x y angle : ℚ) : ℚ × ℚ × ℚ :=
  let normalized_angle := normalizeAngle angle
  let x_rounded := roundTo6Decimals x
  let y_rounded := roundTo6Decimals y
  let angle_rounded := roundTo6Decimals normalized_angle
  (x_rounded, y_rounded, angle_rounded)

theorem roundTo6Decimals_eq_halfAway (v : ℚ) :
    roundTo6Decimals v = roundHalfAwayFromZero6 v := by
  simp only [roundTo6Decimals, roundHalfAwayFromZero6]
  rcases le_or_lt 0 v with h | h
  · have hs : 0 ≤ v * 1000000 := by positivity
    rw [if_pos hs, if_pos h]
    norm_num
  · have hs : ¬ (0 ≤ v * 1000000) := by
      intro hc; nlinarith
    rw [if_neg hs, if_neg (not_le.mpr h)]
    rw [show -v * 1000000 + (1 : ℚ) / 2 = -(v * 1000000 - (0.5 : ℚ)) from by
      rw [show (0.5 : ℚ) = 1 / 2 from by norm_num]; ring]
    rw [Int.floor_neg]
    push_cast
    ring

/-- The rounded value is an integer number of millionths, so the fixed-point
six-fractional-digit rendering of `writeJsonlRecord` represents it exactly. -/
theorem roundTo6Decimals_millionths (v : ℚ) :
    ∃ n : ℤ, roundTo6Decimals v = (n : ℚ) / 1000000 := by
  unfold roundTo6Decimals
  dsimp only
  split
  · exact ⟨_, rfl⟩
  · exact ⟨_, rfl⟩

/-! ## Polyhedron.hpp and the search state -/

/-- `struct Polyhedron`.  C++ `int` identifiers are modelled as `ℤ`. -/
structure Polyhedron where
  num_faces : ℕ
  gon_list : List ℤ
  adj_edges : List (List ℤ)
  adj_faces : List (List ℤ)
deriving DecidableEq

/-- Indexing a `std::vector` with a C++ `int`.  In-range reads agree with the
vector; out-of-range reads (undefined behaviour in C++) return the default. -/
def vecGet {α : Type} (l : List α) (i : ℤ) (d : α) : α := l.getD i.toNat d

/-- Read of `face_usage[i]` (`true` = unused, matching the initialisation). -/
def usageGet (face_usage : List Bool) (i : ℤ) : Bool := vecGet face_usage i true

/-- Write of `face_usage[i] = b`; out-of-range writes are dropped. -/
def usageSet (face_usage : List Bool) (i : ℤ) (b : Bool) : List Bool :=
  face_usage.set i.toNat b

/-- Loop body of `Polyhedron::getEdgeIndex`. -/
def getEdgeIndexGo (edges : List ℤ) (edge_id : ℤ) (i : ℤ) : ℤ :=
  match edges with
  | [] => -1
  | e :: rest => if e = edge_id then i else getEdgeIndexGo rest edge_id (i + 1)

/-- `Polyhedron::getEdgeIndex`: index of `edge_id` in `adj_edges[face_id]`,
`-1` if absent. -/
def Polyhedron.getEdgeIndex (P : Polyhedron) (face_id edge_id : ℤ) : ℤ :=
  getEdgeIndexGo (vecGet P.adj_edges face_id []) edge_id 0

/-- `struct FaceState` / `struct UnfoldingState`. -/
structure FaceState where
  face_id : ℤ
  edge_id : ℤ
  x : ℚ
  y : ℚ
  angle : ℚ
  remaining_distance : ℚ
  symmetry_enabled : Bool
  y_moved_off_axis : Bool
deriving DecidableEq

/-- `struct UnfoldedFace`. -/
structure UnfoldedFace where
  face_id : ℤ
  gon : ℤ
  edge_id : ℤ
  x : ℚ
  y : ℚ
  angle : ℚ
deriving DecidableEq

/-- One line of `JsonUtil::writeJsonlRecord` output, with the fields that
vary between records (`schema_version` and `record_type` are constants). -/
structure JsonlRecord where
  base_face : ℤ
  base_edge : ℤ
  symmetric_used : Bool
  faces : List UnfoldedFace
deriving DecidableEq

abbrev SearchResult := Option (List JsonlRecord × List Bool × List UnfoldedFace)

/-! ## RotationalUnfolding.hpp -/

/-- The per-child angle update of the search loop:
`next_face_angle -= 360.0 / current_face_gon; normalizeAngle(next_face_angle);`. -/
def stepAngle (current_face_gon : ℤ) (angle : ℚ) : ℚ :=
  normalizeAngle (angle - 360 / (current_face_gon : ℚ))

/-- The `next_state` built for one adjacent face inside
`searchPartialUnfoldings`: displaced through the outgoing angle by the sum of
the two inradii, with the back-angle `next_face_angle - 180`. -/
def nextFaceState (F : FloatOps) (P : Polyhedron) (st : FaceState)
    (current_face_gon : ℤ) (next_face_angle : ℚ) (next_face_id next_edge_id : ℤ) :
    FaceState :=
  let current_inradius := inradius F current_face_gon
  let next_inradius := inradius F (vecGet P.gon_list next_face_id 0)
  { face_id := next_face_id
    edge_id := next_edge_id
    x := st.x + (current_inradius + next_inradius) * F.cos (next_face_angle * PIq / 180)
    y := st.y + (current_inradius + next_inradius) * F.sin (next_face_angle * PIq / 180)
    angle := next_face_angle - 180
    remaining_distance := st.remaining_distance
    symmetry_enabled := st.symmetry_enabled
    y_moved_off_axis := st.y_moved_off_axis }

/-- The `for (int i = current_edge_pos + 1; i < current_edge_pos + current_face_gon; ++i)`
loop of `searchPartialUnfoldings`.  `ks` enumerates the loop offsets
`k = i - (current_edge_pos + 1)`; `st` is the mutated local `state` (snapped
coordinates, updated remaining distance and symmetry flag); `rec` is the
recursive call at one less fuel. -/
def childLoopAux (F : FloatOps) (P : Polyhedron)
    (rec : FaceState → List Bool → List UnfoldedFace → SearchResult)
    (st : FaceState) (current_face_gon current_edge_pos : ℤ) :
    List ℕ → ℚ → List Bool → List UnfoldedFace → List JsonlRecord → SearchResult
  | [], _, face_usage, unfolding_sequence, recs =>
      some (recs, face_usage, unfolding_sequence)
  | k :: ks, angle, face_usage, unfolding_sequence, recs =>
      let next_face_angle := stepAngle current_face_gon angle
      let idx := (current_edge_pos + 1 + (k : ℤ)) % current_face_gon
      let next_face_id := vecGet (vecGet P.adj_faces st.face_id []) idx 0
      if usageGet face_usage next_face_id = false then
        childLoopAux F P rec st current_face_gon current_edge_pos
          ks next_face_angle face_usage unfolding_sequence recs
      else
        let next_edge_id := vecGet (vecGet P.adj_edges st.face_id []) idx 0
        let next_state :=
          nextFaceState F P st current_face_gon next_face_angle next_face_id next_edge_id
        match rec next_state face_usage unfolding_sequence with
        | none => none
        | some out2 =>
            childLoopAux F P rec st current_face_gon current_edge_pos
              ks next_face_angle out2.2.1 out2.2.2 (recs ++ out2.1)

/-- The symmetry-flag update `if (state.y > 0.0) state.y_moved_off_axis = false;`
performed inside the `if (state.symmetry_enabled)` block (when the flag is
disabled the update does not fire and the old value is kept). -/
def updateYmo (symmetry_enabled y_moved_off_axis : Bool) (sy : ℚ) : Bool :=
  if symmetry_enabled ∧ 0 < sy then false else y_moved_off_axis

/-- The body of `RotationalUnfolding::searchPartialUnfoldings`, with the
recursive call abstracted as `rec`.  The flattened symmetry-pruning update
(`ymo`) is equivalent to the source's nested `if (state.symmetry_enabled)`
block: when the flag is disabled neither the update nor the prune fires. -/
def searchBody (F : FloatOps) (P : Polyhedron) (base_face_id base_edge_id : ℤ)
    (symmetry_enabled : Bool)
    (rec : FaceState → List Bool → List UnfoldedFace → SearchResult)
    (state : FaceState) (face_usage : List Bool)
    (unfolding_sequence : List UnfoldedFace) : SearchResult :=
  let current_face_id := state.face_id
  let current_face_gon := vecGet P.gon_list current_face_id 0
  let usage1 := usageSet face_usage current_face_id false
  let remaining := state.remaining_distance - 2 * circumradius F current_face_gon
  let angle := normalizeAngle state.angle
  let seq1 := unfolding_sequence ++
    [⟨current_face_id, current_face_gon, state.edge_id, state.x, state.y, angle⟩]
  let sx := snap state.x
  let sy := snap state.y
  let distance_from_origin := getDistanceFromOrigin F sx sy
  let base_face_circumradius := circumradius F (vecGet P.gon_list base_face_id 0)
  let current_face_circumradius := circumradius F current_face_gon
  if distance_from_origin >
      remaining + base_face_circumradius + current_face_circumradius + buffer then
    some ([], usageSet usage1 current_face_id true, seq1.dropLast)
  else
    let ymo := updateYmo state.symmetry_enabled state.y_moved_off_axis sy
    if state.symmetry_enabled ∧ ymo = true ∧ sy < 0 then
      some ([], usageSet usage1 current_face_id true, seq1.dropLast)
    else
      let recs0 : List JsonlRecord :=
        if distance_from_origin <
            base_face_circumradius + current_face_circumradius + buffer then
          [⟨base_face_id, base_edge_id, symmetry_enabled, seq1⟩]
        else []
      let current_edge_pos := P.getEdgeIndex current_face_id state.edge_id
      let st' : FaceState := { state with
        x := sx, y := sy, angle := angle,
        remaining_distance := remaining, y_moved_off_axis := ymo }
      match childLoopAux F P rec st' current_face_gon current_edge_pos
        (List.range (current_face_gon - 1).toNat) angle usage1 seq1 recs0 with
      | none => none
      | some out2 =>
          some (out2.1, usageSet out2.2.1 current_face_id true, out2.2.2.dropLast)

/-- `RotationalUnfolding::searchPartialUnfoldings`, made total with a fuel
parameter: `none` means the fuel was exhausted (the termination theorem shows
enough fuel always exists). -/
def searchPartialUnfoldings (F : FloatOps) (P : Polyhedron)
    (base_face_id base_edge_id : ℤ) (symmetry_enabled : Bool) (fuel : ℕ) :
    FaceState → List Bool → List UnfoldedFace → SearchResult :=
  Nat.rec (motive := fun _ => FaceState → List Bool → List UnfoldedFace → SearchResult)
    (fun _ _ _ => none)
    (fun _ ih => searchBody F P base_face_id base_edge_id symmetry_enabled ih)
    fuel

theorem searchPartialUnfoldings_succ (F : FloatOps) (P : Polyhedron)
    (base_face_id base_edge_id : ℤ) (symmetry_enabled : Bool) (fuel : ℕ) :
    searchPartialUnfoldings F P base_face_id base_edge_id symmetry_enabled (fuel + 1)
      = searchBody F P base_face_id base_edge_id symmetry_enabled
          (searchPartialUnfoldings F P base_face_id base_edge_id symmetry_enabled fuel) :=
  rfl

/-- `RotationalUnfolding::getSecondFaceState` (= `setupInitialState`). -/
def getSecondFaceState (F : FloatOps) (P : Polyhedron)
    (base_face_id base_edge_id : ℤ) (symmetry_enabled y_moved_off_axis : Bool) :
    FaceState :=
  let base_edge_pos := P.getEdgeIndex base_face_id base_edge_id
  let remaining_distance := (List.range P.num_faces).foldl
    (fun acc i => if (i : ℤ) ≠ base_face_id then
      acc + 2 * circumradius F (vecGet P.gon_list (i : ℤ) 0) else acc) 0
  let second_face_id := vecGet (vecGet P.adj_faces base_face_id []) base_edge_pos 0
  let second_edge_id := vecGet (vecGet P.adj_edges base_face_id []) base_edge_pos 0
  let base_face_inradius := inradius F (vecGet P.gon_list base_face_id 0)
  let second_face_inradius := inradius F (vecGet P.gon_list second_face_id 0)
  { face_id := second_face_id
    edge_id := second_edge_id
    x := base_face_inradius + second_face_inradius
    y := 0
    angle := -180
    remaining_distance := remaining_distance
    symmetry_enabled := symmetry_enabled
    y_moved_off_axis := y_moved_off_axis }

/-- `RotationalUnfolding::runRotationalUnfolding`: mark the base face used,
seed the sequence with the base face, and search from the second face. -/
def runRotationalUnfolding (F : FloatOps) (P : Polyhedron)
    (base_face_id base_edge_id : ℤ) (symmetry_enabled y_moved_off_axis : Bool)
    (fuel : ℕ) : SearchResult :=
  let face_usage := usageSet (List.replicate P.num_faces true) base_face_id false
  let unfolding_sequence : List UnfoldedFace :=
    [⟨base_face_id, vecGet P.gon_list base_face_id 0, base_edge_id, 0, 0, 0⟩]
  let second_face_state :=
    getSecondFaceState F P base_face_id base_edge_id symmetry_enabled y_moved_off_axis
  searchPartialUnfoldings F P base_face_id base_edge_id symmetry_enabled fuel
    second_face_state face_usage unfolding_sequence

/-- The stream of records a run writes (empty when the fuel ran out). -/
def runRecords (F : FloatOps) (P : Polyhedron) (base_face_id base_edge_id : ℤ)
    (symmetry_enabled y_moved_off_axis : Bool) (fuel : ℕ) : List JsonlRecord :=
  match runRotationalUnfolding F P base_face_id base_edge_id symmetry_enabled
      y_moved_off_axis fuel with
  | some (recs, _, _) => recs
  | none => []

/-! ## List bookkeeping lemmas for the scratch arrays -/

theorem setTrue_of_getD_true : ∀ (l : List Bool) (n : ℕ),
    l.getD n true = true → l.set n true = l := by
  intro l
  induction l with
  | nil => intro n _; rfl
  | cons b t ih =>
    intro n h
    cases n with
    | zero =>
      simp only [List.getD_cons_zero] at h
      simp [List.set, h]
    | succ m =>
      simp only [List.getD_cons_succ] at h
      simp [List.set, ih m h]

theorem usageSet_restore (u : List Bool) (i : ℤ) (h : usageGet u i = true) :
    usageSet (usageSet u i false) i true = u := by
  unfold usageSet usageGet vecGet at *
  rw [List.set_set]
  exact setTrue_of_getD_true u i.toNat h

theorem getD_set_ne {α : Type} : ∀ (l : List α) (n m : ℕ) (a d : α), n ≠ m →
    (l.set n a).getD m d = l.getD m d := by
  intro l
  induction l with
  | nil => intro n m a d _; rfl
  | cons b t ih =>
    intro n m a d hnm
    cases n with
    | zero =>
      cases m with
      | zero => exact absurd rfl hnm
      | succ m' => simp [List.set]
    | succ n' =>
      cases m with
      | zero => simp [List.set]
      | succ m' =>
        simp only [List.set, List.getD_cons_succ]
        exact ih n' m' a d (fun hc => hnm (by rw [hc]))

theorem getD_set_self : ∀ (l : List Bool) (n : ℕ) (a : Bool), n < l.length →
    (l.set n a).getD n true = a := by
  intro l
  induction l with
  | nil => intro n a h; exact absurd h (by simp)
  | cons b t ih =>
    intro n a h
    cases n with
    | zero => rfl
    | succ m =>
      simp only [List.set, List.getD_cons_succ]
      exact ih m a (by simpa using h)

theorem count_set_false : ∀ (l : List Bool) (n : ℕ), n < l.length →
    l.getD n true = true →
    (l.set n false).count true + 1 = l.count true := by
  intro l
  induction l with
  | nil => intro n h; exact absurd h (by simp)
  | cons b t ih =>
    intro n hlen h
    cases n with
    | zero =>
      have hb : b = true := h
      simp [List.set, hb, List.count_cons]
    | succ m =>
      simp only [List.getD_cons_succ] at h
      have := ih m (by simpa using hlen) h
      simp only [List.set, List.count_cons]
      omega

theorem one_le_count_of_getD_true : ∀ (l : List Bool) (n : ℕ), n < l.length →
    l.getD n true = true → 1 ≤ l.count true := by
  intro l
  induction l with
  | nil => intro n h; exact absurd h (by simp)
  | cons b t ih =>
    intro n hlen h
    cases n with
    | zero =>
      have hb : b = true := h
      simp [hb, List.count_cons]
    | succ m =>
      simp only [List.getD_cons_succ] at h
      have := ih m (by simpa using hlen) h
      simp only [List.count_cons]
      omega

/-! ## Frame property: every exit path restores the scratch state -/

theorem childLoopAux_frame (F : FloatOps) (P : Polyhedron)
    (rec : FaceState → List Bool → List UnfoldedFace → SearchResult)
    (st : FaceState) (g pos : ℤ)
    (hrec : ∀ st2 u2 p2 out2, rec st2 u2 p2 = some out2 →
      out2.2.2 = p2 ∧ (usageGet u2 st2.face_id = true → out2.2.1 = u2)) :
    ∀ ks angle u p recs out,
      childLoopAux F P rec st g pos ks angle u p recs = some out →
      out.2.2 = p ∧ out.2.1 = u := by
  intro ks
  induction ks with
  | nil =>
    intro angle u p recs out h
    simp only [childLoopAux] at h
    cases h
    exact ⟨rfl, rfl⟩
  | cons k ks ih =>
    intro angle u p recs out h
    simp only [childLoopAux] at h
    split at h
    · exact ih _ _ _ _ _ h
    · rename_i hguard
      cases hrc : rec (nextFaceState F P st g (stepAngle g angle)
          (vecGet (vecGet P.adj_faces st.face_id []) ((pos + 1 + (k : ℤ)) % g) 0)
          (vecGet (vecGet P.adj_edges st.face_id []) ((pos + 1 + (k : ℤ)) % g) 0)) u p with
      | none => rw [hrc] at h; cases h
      | some out2 =>
        obtain ⟨rs, u2, p2⟩ := out2
        rw [hrc] at h
        have hfr := hrec _ _ _ _ hrc
        have hgu : usageGet u (vecGet (vecGet P.adj_faces st.face_id [])
            ((pos + 1 + (k : ℤ)) % g) 0) = true := by
          revert hguard
          cases usageGet u (vecGet (vecGet P.adj_faces st.face_id [])
            ((pos + 1 + (k : ℤ)) % g) 0) <;> simp
        have hp2 : p2 = p := hfr.1
        have hu2 : u2 = u := hfr.2 hgu
        subst hp2; subst hu2
        exact ih _ _ _ _ _ h

theorem search_frame (F : FloatOps) (P : Polyhedron) (bF bE : ℤ) (symU : Bool) :
    ∀ (fuel : ℕ) (st : FaceState) (u : List Bool) (p : List UnfoldedFace) out,
      searchPartialUnfoldings F P bF bE symU fuel st u p = some out →
      out.2.2 = p ∧ (usageGet u st.face_id = true → out.2.1 = u) := by
  intro fuel
  induction fuel with
  | zero => intro st u p out h; cases h
  | succ n ih =>
    intro st u p out h
    rw [searchPartialUnfoldings_succ] at h
    simp only [searchBody] at h
    split at h
    · cases h
      exact ⟨List.dropLast_concat, fun hg => usageSet_restore u st.face_id hg⟩
    · split at h
      · cases h
        exact ⟨List.dropLast_concat, fun hg => usageSet_restore u st.face_id hg⟩
      · cases hc : childLoopAux F P
            (searchPartialUnfoldings F P bF bE symU n)
            { st with
              x := snap st.x, y := snap st.y, angle := normalizeAngle st.angle,
              remaining_distance :=
                st.remaining_distance - 2 * circumradius F (vecGet P.gon_list st.face_id 0),
              y_moved_off_axis :=
                updateYmo st.symmetry_enabled st.y_moved_off_axis (snap st.y) }
            (vecGet P.gon_list st.face_id 0)
            (P.getEdgeIndex st.face_id st.edge_id)
            (List.range ((vecGet P.gon_list st.face_id 0) - 1).toNat)
            (normalizeAngle st.angle)
            (usageSet u st.face_id false)
            (p ++ [⟨st.face_id, vecGet P.gon_list st.face_id 0, st.edge_id,
              st.x, st.y, normalizeAngle st.angle⟩])
            (if getDistanceFromOrigin F (snap st.x) (snap st.y) <
                circumradius F (vecGet P.gon_list bF 0)
                + circumradius F (vecGet P.gon_list st.face_id 0) + buffer then
              [⟨bF, bE, symU, p ++ [⟨st.face_id, vecGet P.gon_list st.face_id 0,
                st.edge_id, st.x, st.y, normalizeAngle st.angle⟩]⟩]
            else []) with
        | none => rw [hc] at h; cases h
        | some out2 =>
          obtain ⟨recs, u2, p2⟩ := out2
          rw [hc] at h
          cases h
          have hfr := childLoopAux_frame F P _ _ _ _ (fun st2 u2 p2 out2 hr => ih st2 u2 p2 out2 hr)
            _ _ _ _ _ _ hc
          have hp2 : p2 = p ++ [⟨st.face_id, vecGet P.gon_list st.face_id 0, st.edge_id,
              st.x, st.y, normalizeAngle st.angle⟩] := hfr.1
          have hu2 : u2 = usageSet u st.face_id false := hfr.2
          subst hp2; subst hu2
          exact ⟨List.dropLast_concat, fun hg => usageSet_restore u st.face_id hg⟩

/-! ## Distance-gate soundness of emitted records (E1 output gate) -/

theorem childLoopAux_records (F : FloatOps) (P : Polyhedron)
    (rec : FaceState → List Bool → List UnfoldedFace → SearchResult)
    (st : FaceState) (g pos : ℤ) (Q : JsonlRecord → Prop)
    (hrec : ∀ st2 u2 p2 out2, rec st2 u2 p2 = some out2 → ∀ r ∈ out2.1, Q r) :
    ∀ ks angle u p recs out,
      childLoopAux F P rec st g pos ks angle u p recs = some out →
      (∀ r ∈ recs, Q r) → ∀ r ∈ out.1, Q r := by
  intro ks
  induction ks with
  | nil =>
    intro angle u p recs out h hacc
    simp only [childLoopAux] at h
    cases h
    exact hacc
  | cons k ks ih =>
    intro angle u p recs out h hacc
    simp only [childLoopAux] at h
    split at h
    · exact ih _ _ _ _ _ h hacc
    · split at h
      · cases h
      · rename_i out2 hrc
        obtain ⟨rs, u2, p2⟩ := out2
        refine ih _ _ _ _ _ h ?_
        intro r hr
        rcases List.mem_append.mp hr with hl | hl
        · exact hacc r hl
        · exact hrec _ _ _ _ hrc r hl

theorem search_records_gate (F : FloatOps) (P : Polyhedron) (bF bE : ℤ) (symU : Bool) :
    ∀ (fuel : ℕ) (st : FaceState) (u : List Bool) (p : List UnfoldedFace) out,
      searchPartialUnfoldings F P bF bE symU fuel st u p = some out →
      ∀ r ∈ out.1, ∃ lf : UnfoldedFace, r.faces.getLast? = some lf ∧
        getDistanceFromOrigin F (snap lf.x) (snap lf.y) <
          circumradius F (vecGet P.gon_list bF 0) + circumradius F lf.gon + buffer := by
  intro fuel
  induction fuel with
  | zero => intro st u p out h; cases h
  | succ n ih =>
    intro st u p out h
    rw [searchPartialUnfoldings_succ] at h
    simp only [searchBody] at h
    split at h
    · cases h; intro r hr; cases hr
    · split at h
      · cases h; intro r hr; cases hr
      · split at h
        · cases h
        · rename_i out2 hc
          cases h
          intro r hr
          have h2 := childLoopAux_records F P _ _ _ _ _
            (fun st2 uu pp oo hrr => ih st2 uu pp oo hrr) _ _ _ _ _ _ hc
          refine h2 ?_ r hr
          intro r' hr'
          split at hr'
          · rename_i hdist
            rcases List.mem_singleton.mp hr' with rfl
            exact ⟨_, List.getLast?_concat _, hdist⟩
          · cases hr'

/-! ## No face is used twice: the `face_usage` discipline -/

/-- Input sanity: every entry of `adj_faces` is a valid face index. -/
def AdjValid (P : Polyhedron) : Prop :=
  ∀ l ∈ P.adj_faces, ∀ a ∈ l, 0 ≤ a ∧ a.toNat < P.num_faces

theorem getD_mem_or {α : Type} : ∀ (l : List α) (n : ℕ) (d : α),
    l.getD n d ∈ l ∨ l.getD n d = d := by
  intro l
  induction l with
  | nil => intro n d; right; rfl
  | cons b t ih =>
    intro n d
    cases n with
    | zero => left; simp
    | succ m =>
      rcases ih m d with h | h
      · left; simp only [List.getD_cons_succ]; exact List.mem_cons_of_mem _ h
      · right; simpa using h

theorem adjEntry_valid (P : Polyhedron) (hA : AdjValid P) (hpos : 0 < P.num_faces)
    (f i : ℤ) :
    0 ≤ vecGet (vecGet P.adj_faces f []) i 0 ∧
      (vecGet (vecGet P.adj_faces f []) i 0).toNat < P.num_faces := by
  unfold vecGet
  rcases getD_mem_or P.adj_faces f.toNat [] with hl | hl
  · rcases getD_mem_or (P.adj_faces.getD f.toNat []) i.toNat (0 : ℤ) with ha | ha
    · exact hA _ hl _ ha
    · rw [ha]; exact ⟨le_refl 0, hpos⟩
  · rw [hl]
    simp only [List.getD_nil]
    exact ⟨le_refl 0, hpos⟩

theorem nodup_snoc {α : Type} (l : List α) (a : α) :
    (l ++ [a]).Nodup ↔ l.Nodup ∧ a ∉ l := by
  simp [List.nodup_append]

theorem childLoopAux_nodup (F : FloatOps) (P : Polyhedron)
    (rec : FaceState → List Bool → List UnfoldedFace → SearchResult)
    (st : FaceState) (g pos : ℤ) (Q : JsonlRecord → Prop)
    (hA : AdjValid P) (hpos : 0 < P.num_faces)
    (u : List Bool) (p : List UnfoldedFace)
    (hlen : u.length = P.num_faces)
    (hpath : ∀ f ∈ p, usageGet u f.face_id = false)
    (hnd : (p.map UnfoldedFace.face_id).Nodup)
    (hrecframe : ∀ st2 u2 p2 out2, rec st2 u2 p2 = some out2 →
      out2.2.2 = p2 ∧ (usageGet u2 st2.face_id = true → out2.2.1 = u2))
    (hrecgood : ∀ st2 u2 p2 out2, rec st2 u2 p2 = some out2 →
      u2.length = P.num_faces →
      0 ≤ st2.face_id → st2.face_id.toNat < P.num_faces →
      usageGet u2 st2.face_id = true →
      (∀ f ∈ p2, usageGet u2 f.face_id = false) →
      (p2.map UnfoldedFace.face_id).Nodup →
      ∀ r ∈ out2.1, Q r) :
    ∀ ks angle recs out,
      childLoopAux F P rec st g pos ks angle u p recs = some out →
      (∀ r ∈ recs, Q r) → ∀ r ∈ out.1, Q r := by
  intro ks
  induction ks with
  | nil =>
    intro angle recs out h hacc
    simp only [childLoopAux] at h
    cases h
    exact hacc
  | cons k ks ih =>
    intro angle recs out h hacc
    simp only [childLoopAux] at h
    split at h
    · exact ih _ _ _ h hacc
    · rename_i hguard
      split at h
      · cases h
      · rename_i out2 hrc
        have hgu : usageGet u (vecGet (vecGet P.adj_faces st.face_id [])
            ((pos + 1 + (k : ℤ)) % g) 0) = true := by
          revert hguard
          cases usageGet u (vecGet (vecGet P.adj_faces st.face_id [])
            ((pos + 1 + (k : ℤ)) % g) 0) <;> simp
        have hvalid := adjEntry_valid P hA hpos st.face_id ((pos + 1 + (k : ℤ)) % g)
        have hfr := hrecframe _ _ _ _ hrc
        have hgood := hrecgood _ _ _ _ hrc hlen hvalid.1 hvalid.2 hgu hpath hnd
        have hu2 : out2.2.1 = u := hfr.2 hgu
        have hp2 : out2.2.2 = p := hfr.1
        rw [hu2, hp2] at h
        refine ih _ _ _ h ?_
        intro r hr
        rcases List.mem_append.mp hr with hl | hl
        · exact hacc r hl
        · exact hgood r hl

theorem getD_set_false : ∀ (l : List Bool) (n m : ℕ),
    l.getD m true = false → (l.set n false).getD m true = false := by
  intro l
  induction l with
  | nil => intro n m h; cases h
  | cons b t ih =>
    intro n m h
    cases n with
    | zero =>
      cases m with
      | zero => rfl
      | succ m' => simpa using h
    | succ n' =>
      cases m with
      | zero => simpa using h
      | succ m' =>
        simp only [List.set, List.getD_cons_succ] at h ⊢
        exact ih n' m' h

theorem search_nodup (F : FloatOps) (P : Polyhedron) (bF bE : ℤ) (symU : Bool)
    (hA : AdjValid P) (hpos : 0 < P.num_faces) :
    ∀ (fuel : ℕ) (st : FaceState) (u : List Bool) (p : List UnfoldedFace) out,
      searchPartialUnfoldings F P bF bE symU fuel st u p = some out →
      u.length = P.num_faces →
      0 ≤ st.face_id → st.face_id.toNat < P.num_faces →
      usageGet u st.face_id = true →
      (∀ f ∈ p, usageGet u f.face_id = false) →
      (p.map UnfoldedFace.face_id).Nodup →
      ∀ r ∈ out.1, r.faces ≠ [] ∧ (r.faces.map UnfoldedFace.face_id).Nodup := by
  intro fuel
  induction fuel with
  | zero => intro st u p out h; cases h
  | succ n ih =>
    intro st u p out h hlen hnn hbound hunused hpath hnd
    have hcurnotin : st.face_id ∉ p.map UnfoldedFace.face_id := by
      intro hmem
      rcases List.mem_map.mp hmem with ⟨f, hf, hfid⟩
      have hff := hpath f hf
      rw [hfid, hunused] at hff
      cases hff
    have hsnoc : ((p ++ [(⟨st.face_id, vecGet P.gon_list st.face_id 0, st.edge_id,
        st.x, st.y, normalizeAngle st.angle⟩ : UnfoldedFace)]).map
          UnfoldedFace.face_id).Nodup := by
      simp only [List.map_append, List.map_cons, List.map_nil]
      rw [nodup_snoc]
      exact ⟨hnd, hcurnotin⟩
    have hpath1 : ∀ f ∈ p ++ [(⟨st.face_id, vecGet P.gon_list st.face_id 0, st.edge_id,
        st.x, st.y, normalizeAngle st.angle⟩ : UnfoldedFace)],
        usageGet (usageSet u st.face_id false) f.face_id = false := by
      intro f hf
      rcases List.mem_append.mp hf with hl | hl
      · exact getD_set_false u st.face_id.toNat f.face_id.toNat (hpath f hl)
      · rcases List.mem_singleton.mp hl with rfl
        exact getD_set_self u st.face_id.toNat false (hlen ▸ hbound)
    have hlen1 : (usageSet u st.face_id false).length = P.num_faces := by
      unfold usageSet
      rw [List.length_set]
      exact hlen
    rw [searchPartialUnfoldings_succ] at h
    simp only [searchBody] at h
    split at h
    · cases h; intro r hr; cases hr
    · split at h
      · cases h; intro r hr; cases hr
      · split at h
        · cases h
        · rename_i out2 hc
          cases h
          intro r hr
          have h2 := childLoopAux_nodup F P
            (searchPartialUnfoldings F P bF bE symU n) _ _ _ _ hA hpos _ _
            hlen1 hpath1 hsnoc
            (fun st2 u2 p2 o2 hrr => search_frame F P bF bE symU n st2 u2 p2 o2 hrr)
            (fun st2 u2 p2 o2 hrr a b c d e f => ih st2 u2 p2 o2 hrr a b c d e f)
            _ _ _ _ hc
          refine h2 ?_ r hr
          intro r' hr'
          split at hr'
          · rcases List.mem_singleton.mp hr' with rfl
            refine ⟨by simp, hsnoc⟩
          · cases hr'

/-! ## Symmetry pruning invariant -/

theorem snap_zero : snap 0 = 0 := by
  unfold snap
  split <;> rfl

/-- No face with (snapped) negative `y` appears before every face with
(snapped) positive `y`: each negative-`y` face is preceded by a positive-`y`
face. -/
def NoNegFirst (l : List UnfoldedFace) : Prop :=
  ∀ i : Fin l.length, snap (l.get i).y < 0 →
    ∃ j : Fin l.length, (j : ℕ) < (i : ℕ) ∧ 0 < snap (l.get j).y

theorem noNegFirst_snoc (l : List UnfoldedFace) (c : UnfoldedFace)
    (hl : NoNegFirst l) (hc : snap c.y < 0 → ∃ f ∈ l, 0 < snap f.y) :
    NoNegFirst (l ++ [c]) := by
  intro i hneg
  rcases lt_or_ge (i : ℕ) l.length with hlt | hge
  · have hget : (l ++ [c]).get i = l.get ⟨i, hlt⟩ := by
      simp [List.get_eq_getElem, List.getElem_append_left hlt]
    rw [hget] at hneg
    obtain ⟨j, hji, hjpos⟩ := hl ⟨i, hlt⟩ hneg
    have hjlen : (j : ℕ) < (l ++ [c]).length := by
      simp only [List.length_append, List.length_cons, List.length_nil]
      omega
    refine ⟨⟨j, hjlen⟩, by simpa using hji, ?_⟩
    have hget2 : (l ++ [c]).get ⟨(j : ℕ), hjlen⟩ = l.get j := by
      simp [List.get_eq_getElem, List.getElem_append_left j.2]
    rw [hget2]
    exact hjpos
  · have hieq : (i : ℕ) = l.length := by
      have h2 := i.2
      simp only [List.length_append, List.length_cons, List.length_nil] at h2
      omega
    have hget : (l ++ [c]).get i = c := by
      have := List.getElem_concat_length l c (i : ℕ) hieq (by simpa using i.2)
      simpa [List.get_eq_getElem] using this
    rw [hget] at hneg
    obtain ⟨f, hf, hfpos⟩ := hc hneg
    obtain ⟨j, hj⟩ := List.mem_iff_get.mp hf
    have hjlen : (j : ℕ) < (l ++ [c]).length := by
      simp only [List.length_append, List.length_cons, List.length_nil]
      omega
    refine ⟨⟨j, hjlen⟩, ?_, ?_⟩
    · show (j : ℕ) < (i : ℕ)
      rw [hieq]
      exact j.2
    · have hget2 : (l ++ [c]).get ⟨(j : ℕ), hjlen⟩ = l.get j := by
        simp [List.get_eq_getElem, List.getElem_append_left j.2]
      rw [hget2, hj]
      exact hfpos

theorem childLoopAux_sym (F : FloatOps) (P : Polyhedron)
    (rec : FaceState → List Bool → List UnfoldedFace → SearchResult)
    (st : FaceState) (g pos : ℤ)
    (henabled : st.symmetry_enabled = true)
    (p : List UnfoldedFace)
    (hflag : st.y_moved_off_axis = false ↔ ∃ f ∈ p, 0 < snap f.y)
    (hnn : NoNegFirst p)
    (hrecframe : ∀ st2 u2 p2 out2, rec st2 u2 p2 = some out2 →
      out2.2.2 = p2 ∧ (usageGet u2 st2.face_id = true → out2.2.1 = u2))
    (hrecgood : ∀ st2 u2 p2 out2, rec st2 u2 p2 = some out2 →
      st2.symmetry_enabled = true →
      (st2.y_moved_off_axis = false ↔ ∃ f ∈ p2, 0 < snap f.y) →
      NoNegFirst p2 →
      ∀ r ∈ out2.1, NoNegFirst r.faces) :
    ∀ ks angle u recs out,
      childLoopAux F P rec st g pos ks angle u p recs = some out →
      (∀ r ∈ recs, NoNegFirst r.faces) → ∀ r ∈ out.1, NoNegFirst r.faces := by
  intro ks
  induction ks with
  | nil =>
    intro angle u recs out h hacc
    simp only [childLoopAux] at h
    cases h
    exact hacc
  | cons k ks ih =>
    intro angle u recs out h hacc
    simp only [childLoopAux] at h
    split at h
    · exact ih _ _ _ _ h hacc
    · rename_i hguard
      split at h
      · cases h
      · rename_i out2 hrc
        have hgu : usageGet u (vecGet (vecGet P.adj_faces st.face_id [])
            ((pos + 1 + (k : ℤ)) % g) 0) = true := by
          revert hguard
          cases usageGet u (vecGet (vecGet P.adj_faces st.face_id [])
            ((pos + 1 + (k : ℤ)) % g) 0) <;> simp
        have hfr := hrecframe _ _ _ _ hrc
        have hgood := hrecgood _ _ _ _ hrc henabled hflag hnn
        have hu2 : out2.2.1 = u := hfr.2 hgu
        have hp2 : out2.2.2 = p := hfr.1
        rw [hu2, hp2] at h
        refine ih _ _ _ _ h ?_
        intro r hr
        rcases List.mem_append.mp hr with hll | hll
        · exact hacc r hll
        · exact hgood r hll

theorem search_sym (F : FloatOps) (P : Polyhedron) (bF bE : ℤ) (symU : Bool) :
    ∀ (fuel : ℕ) (st : FaceState) (u : List Bool) (p : List UnfoldedFace) out,
      searchPartialUnfoldings F P bF bE symU fuel st u p = some out →
      st.symmetry_enabled = true →
      (st.y_moved_off_axis = false ↔ ∃ f ∈ p, 0 < snap f.y) →
      NoNegFirst p →
      ∀ r ∈ out.1, NoNegFirst r.faces := by
  intro fuel
  induction fuel with
  | zero => intro st u p out h; cases h
  | succ n ih =>
    intro st u p out h henabled hflag hnn
    rw [searchPartialUnfoldings_succ] at h
    simp only [searchBody] at h
    split at h
    · cases h; intro r hr; cases hr
    · split at h
      · cases h; intro r hr; cases hr
      · rename_i hnoprune
        have hcur : snap (⟨st.face_id, vecGet P.gon_list st.face_id 0, st.edge_id,
            st.x, st.y, normalizeAngle st.angle⟩ : UnfoldedFace).y = snap st.y := rfl
        have hflag1 : updateYmo st.symmetry_enabled st.y_moved_off_axis (snap st.y) = false ↔
            ∃ f ∈ p ++ [(⟨st.face_id, vecGet P.gon_list st.face_id 0, st.edge_id,
              st.x, st.y, normalizeAngle st.angle⟩ : UnfoldedFace)], 0 < snap f.y := by
          unfold updateYmo
          rw [henabled]
          constructor
          · intro hf
            by_cases hsy : 0 < snap st.y
            · exact ⟨_, List.mem_append.mpr (Or.inr (List.mem_singleton.mpr rfl)), hsy⟩
            · rw [if_neg (by simpa using hsy)] at hf
              obtain ⟨f, hfm, hfp⟩ := hflag.mp hf
              exact ⟨f, List.mem_append.mpr (Or.inl hfm), hfp⟩
          · intro ⟨f, hfm, hfp⟩
            by_cases hsy : 0 < snap st.y
            · rw [if_pos (by simpa using hsy)]
            · rw [if_neg (by simpa using hsy)]
              rcases List.mem_append.mp hfm with hfl | hfl
              · exact hflag.mpr ⟨f, hfl, hfp⟩
              · rcases List.mem_singleton.mp hfl with rfl
                rw [hcur] at hfp
                exact absurd hfp hsy
        have hnn1 : NoNegFirst (p ++ [(⟨st.face_id, vecGet P.gon_list st.face_id 0,
            st.edge_id, st.x, st.y, normalizeAngle st.angle⟩ : UnfoldedFace)]) := by
          refine noNegFirst_snoc p _ hnn ?_
          intro hneg
          rw [hcur] at hneg
          have hymo : updateYmo st.symmetry_enabled st.y_moved_off_axis (snap st.y) = false := by
            by_contra hne
            have htrue : updateYmo st.symmetry_enabled st.y_moved_off_axis (snap st.y) = true := by
              revert hne
              cases updateYmo st.symmetry_enabled st.y_moved_off_axis (snap st.y) <;> simp
            exact hnoprune ⟨henabled, htrue, hneg⟩
          have := hflag1.mp hymo
          obtain ⟨f, hfm, hfp⟩ := this
          rcases List.mem_append.mp hfm with hfl | hfl
          · exact ⟨f, hfl, hfp⟩
          · rcases List.mem_singleton.mp hfl with rfl
            rw [hcur] at hfp
            exact absurd (lt_trans hneg hfp) (lt_irrefl _)
        split at h
        · cases h
        · rename_i out2 hc
          cases h
          intro r hr
          have h2 := childLoopAux_sym F P
            (searchPartialUnfoldings F P bF bE symU n)
            _ _ _ (by exact henabled) _ hflag1 hnn1
            (fun st2 u2 p2 o2 hrr => search_frame F P bF bE symU n st2 u2 p2 o2 hrr)
            (fun st2 u2 p2 o2 hrr a b c => ih st2 u2 p2 o2 hrr a b c)
            _ _ _ _ _ hc
          refine h2 ?_ r hr
          intro r' hr'
          split at hr'
          · rcases List.mem_singleton.mp hr' with rfl
            exact hnn1
          · cases hr'

/-! ## Symmetry pruning only removes records: subset modulo the flag -/

/-- Forget the `symmetric_used` flag of a record (set it to the `off` value). -/
def stripSym (r : JsonlRecord) : JsonlRecord := { r with symmetric_used := false }

theorem updateYmo_false (b : Bool) (sy : ℚ) : updateYmo false b sy = b := by
  unfold updateYmo
  rw [if_neg]
  intro hc
  cases hc.1

theorem childLoopAux_subset (F : FloatOps) (P : Polyhedron)
    (recOn recOff : FaceState → List Bool → List UnfoldedFace → SearchResult)
    (stOn stOff : FaceState) (b : Bool) (g pos : ℤ)
    (hface : stOff.face_id = stOn.face_id)
    (hx : stOff.x = stOn.x) (hy : stOff.y = stOn.y)
    (hrem : stOff.remaining_distance = stOn.remaining_distance)
    (hsym : stOff.symmetry_enabled = false) (hymo : stOff.y_moved_off_axis = b)
    (hframeOn : ∀ st2 u2 p2 out2, recOn st2 u2 p2 = some out2 →
      out2.2.2 = p2 ∧ (usageGet u2 st2.face_id = true → out2.2.1 = u2))
    (hframeOff : ∀ st2 u2 p2 out2, recOff st2 u2 p2 = some out2 →
      out2.2.2 = p2 ∧ (usageGet u2 st2.face_id = true → out2.2.1 = u2))
    (hrecsub : ∀ st2 u2 p2 o2 o2', recOn st2 u2 p2 = some o2 →
      recOff { st2 with symmetry_enabled := false, y_moved_off_axis := b } u2 p2 = some o2' →
      ∀ r ∈ o2.1, stripSym r ∈ o2'.1) :
    ∀ ks angle u p recsOn recsOff outOn outOff,
      childLoopAux F P recOn stOn g pos ks angle u p recsOn = some outOn →
      childLoopAux F P recOff stOff g pos ks angle u p recsOff = some outOff →
      (∀ r ∈ recsOn, stripSym r ∈ recsOff) →
      ∀ r ∈ outOn.1, stripSym r ∈ outOff.1 := by
  intro ks
  induction ks with
  | nil =>
    intro angle u p recsOn recsOff outOn outOff hOn hOff hacc
    simp only [childLoopAux] at hOn hOff
    cases hOn
    cases hOff
    exact hacc
  | cons k ks ih =>
    intro angle u p recsOn recsOff outOn outOff hOn hOff hacc
    simp only [childLoopAux, hface] at hOn hOff
    split at hOn
    · rw [if_pos (by assumption)] at hOff
      exact ih _ _ _ _ _ _ _ hOn hOff hacc
    · rename_i hguard
      rw [if_neg hguard] at hOff
      split at hOn
      · cases hOn
      · rename_i o2 hrcOn
        have hnst : nextFaceState F P stOff g (stepAngle g angle)
            (vecGet (vecGet P.adj_faces stOn.face_id []) ((pos + 1 + (k : ℤ)) % g) 0)
            (vecGet (vecGet P.adj_edges stOn.face_id []) ((pos + 1 + (k : ℤ)) % g) 0)
            = { nextFaceState F P stOn g (stepAngle g angle)
                (vecGet (vecGet P.adj_faces stOn.face_id []) ((pos + 1 + (k : ℤ)) % g) 0)
                (vecGet (vecGet P.adj_edges stOn.face_id []) ((pos + 1 + (k : ℤ)) % g) 0)
                with symmetry_enabled := false, y_moved_off_axis := b } := by
          simp [nextFaceState, hface, hx, hy, hrem, hsym, hymo]
        rw [hnst] at hOff
        split at hOff
        · cases hOff
        · rename_i o2' hrcOff
          have hgu : usageGet u (vecGet (vecGet P.adj_faces stOn.face_id [])
              ((pos + 1 + (k : ℤ)) % g) 0) = true := by
            revert hguard
            cases usageGet u (vecGet (vecGet P.adj_faces stOn.face_id [])
              ((pos + 1 + (k : ℤ)) % g) 0) <;> simp
          have hfrOn := hframeOn _ _ _ _ hrcOn
          have hfrOff := hframeOff _ _ _ _ hrcOff
          have hsub := hrecsub _ _ _ _ _ hrcOn hrcOff
          rw [hfrOn.1, hfrOn.2 hgu] at hOn
          rw [hfrOff.1, hfrOff.2 hgu] at hOff
          refine ih _ _ _ _ _ _ _ hOn hOff ?_
          intro r hr
          rcases List.mem_append.mp hr with hl | hl
          · exact List.mem_append.mpr (Or.inl (hacc r hl))
          · exact List.mem_append.mpr (Or.inr (hsub r hl))

theorem search_subset (F : FloatOps) (P : Polyhedron) (bF bE : ℤ) :
    ∀ (fuel : ℕ) (st : FaceState) (b : Bool) (u : List Bool) (p : List UnfoldedFace)
      outOn outOff,
      searchPartialUnfoldings F P bF bE true fuel st u p = some outOn →
      searchPartialUnfoldings F P bF bE false fuel
        { st with symmetry_enabled := false, y_moved_off_axis := b } u p = some outOff →
      ∀ r ∈ outOn.1, stripSym r ∈ outOff.1 := by
  intro fuel
  induction fuel with
  | zero => intro st b u p outOn outOff hOn hOff; cases hOn
  | succ n ih =>
    intro st b u p outOn outOff hOn hOff
    rw [searchPartialUnfoldings_succ] at hOn hOff
    simp only [searchBody] at hOn hOff
    split at hOn
    · cases hOn; intro r hr; cases hr
    · rename_i hndist
      rw [if_neg hndist] at hOff
      rw [updateYmo_false] at hOff
      split at hOn
      · cases hOn; intro r hr; cases hr
      · rename_i hnsym
        rw [if_neg (by intro hc; cases hc.1)] at hOff
        split at hOn
        · cases hOn
        · rename_i o2 hcOn
          split at hOff
          · cases hOff
          · rename_i o2' hcOff
            cases hOn
            cases hOff
            intro r hr
            have hsub := childLoopAux_subset F P
              (searchPartialUnfoldings F P bF bE true n)
              (searchPartialUnfoldings F P bF bE false n)
              { st with
                x := snap st.x, y := snap st.y, angle := normalizeAngle st.angle,
                remaining_distance :=
                  st.remaining_distance - 2 * circumradius F (vecGet P.gon_list st.face_id 0),
                y_moved_off_axis :=
                  updateYmo st.symmetry_enabled st.y_moved_off_axis (snap st.y) }
              { st with
                symmetry_enabled := false,
                x := snap st.x, y := snap st.y, angle := normalizeAngle st.angle,
                remaining_distance :=
                  st.remaining_distance - 2 * circumradius F (vecGet P.gon_list st.face_id 0),
                y_moved_off_axis := b }
              b (vecGet P.gon_list st.face_id 0) (P.getEdgeIndex st.face_id st.edge_id)
              rfl rfl rfl rfl rfl rfl
              (fun st2 u2 p2 o hrr => search_frame F P bF bE true n st2 u2 p2 o hrr)
              (fun st2 u2 p2 o hrr => search_frame F P bF bE false n st2 u2 p2 o hrr)
              (fun st2 u2 p2 o o' hrr hrr' => ih st2 b u2 p2 o o' hrr hrr')
              _ _ _ _ _ _ _ _ hcOn hcOff ?_ r hr
            · exact hsub
            · intro r' hr'
              split at hr'
              · rename_i hdist
                rcases List.mem_singleton.mp hr' with rfl
                rw [if_pos hdist]
                exact List.mem_singleton.mpr rfl
              · cases hr'

/-! ## Termination: enough fuel always exists -/

theorem childLoopAux_fuel (F : FloatOps) (P : Polyhedron)
    (rec : FaceState → List Bool → List UnfoldedFace → SearchResult)
    (st : FaceState) (g pos : ℤ) (C : List Bool → Prop)
    (hA : AdjValid P) (hpos : 0 < P.num_faces)
    (hrec : ∀ st2 u2 p2, 0 ≤ st2.face_id → st2.face_id.toNat < P.num_faces →
      usageGet u2 st2.face_id = true → u2.length = P.num_faces → C u2 →
      ∃ o, rec st2 u2 p2 = some o ∧ o.2.1 = u2 ∧ o.2.2 = p2) :
    ∀ ks angle u p recs, u.length = P.num_faces → C u →
      ∃ out, childLoopAux F P rec st g pos ks angle u p recs = some out := by
  intro ks
  induction ks with
  | nil =>
    intro angle u p recs hlen hC
    exact ⟨_, rfl⟩
  | cons k ks ih =>
    intro angle u p recs hlen hC
    simp only [childLoopAux]
    by_cases hg : usageGet u (vecGet (vecGet P.adj_faces st.face_id [])
        ((pos + 1 + (k : ℤ)) % g) 0) = false
    · rw [if_pos hg]
      exact ih _ _ _ _ hlen hC
    · rw [if_neg hg]
      have hgu : usageGet u (vecGet (vecGet P.adj_faces st.face_id [])
          ((pos + 1 + (k : ℤ)) % g) 0) = true := by
        revert hg
        cases usageGet u (vecGet (vecGet P.adj_faces st.face_id [])
          ((pos + 1 + (k : ℤ)) % g) 0) <;> simp
      have hvalid := adjEntry_valid P hA hpos st.face_id ((pos + 1 + (k : ℤ)) % g)
      obtain ⟨o, ho, hou, hop⟩ := hrec
        (nextFaceState F P st g (stepAngle g angle)
          (vecGet (vecGet P.adj_faces st.face_id []) ((pos + 1 + (k : ℤ)) % g) 0)
          (vecGet (vecGet P.adj_edges st.face_id []) ((pos + 1 + (k : ℤ)) % g) 0))
        u p hvalid.1 hvalid.2 hgu hlen hC
      rw [ho]
      dsimp only
      rw [hou, hop]
      exact ih _ _ _ _ hlen hC

/-- The count of unused faces bounds the fuel the search needs. -/
theorem search_fuel (F : FloatOps) (P : Polyhedron) (bF bE : ℤ) (symU : Bool)
    (hA : AdjValid P) (hpos : 0 < P.num_faces) :
    ∀ (fuel : ℕ) (st : FaceState) (u : List Bool) (p : List UnfoldedFace),
      u.length = P.num_faces →
      0 ≤ st.face_id → st.face_id.toNat < P.num_faces →
      usageGet u st.face_id = true →
      u.count true ≤ fuel →
      ∃ out, searchPartialUnfoldings F P bF bE symU fuel st u p = some out := by
  intro fuel
  induction fuel with
  | zero =>
    intro st u p hlen hnn hbound hget hcnt
    have h1 : 1 ≤ u.count true :=
      one_le_count_of_getD_true u st.face_id.toNat (hlen ▸ hbound) hget
    omega
  | succ n ih =>
    intro st u p hlen hnn hbound hget hcnt
    rw [searchPartialUnfoldings_succ]
    simp only [searchBody]
    split
    · exact ⟨_, rfl⟩
    · split
      · exact ⟨_, rfl⟩
      · have hlen1 : (usageSet u st.face_id false).length = P.num_faces := by
          unfold usageSet
          rw [List.length_set]
          exact hlen
        have hcnt1 : (usageSet u st.face_id false).count true ≤ n := by
          have := count_set_false u st.face_id.toNat (hlen ▸ hbound) hget
          unfold usageSet
          omega
        obtain ⟨out2, hout2⟩ := childLoopAux_fuel F P
          (searchPartialUnfoldings F P bF bE symU n) _ _ _
          (fun u2 => u2.count true ≤ n) hA hpos
          (fun st2 u2 p2 a bb c d e => by
            obtain ⟨o, ho⟩ := ih st2 u2 p2 d a bb c e
            exact ⟨o, ho, (search_frame F P bF bE symU n st2 u2 p2 o ho).2 c,
              (search_frame F P bF bE symU n st2 u2 p2 o ho).1⟩)
          _ _ _ _ _ hlen1 hcnt1
        rw [hout2]
        exact ⟨_, rfl⟩

/-! ## The incremental angle updates equal the closed-form spec formula -/

/-- The angle value after `k` iterations of the child loop's update
`next_face_angle -= 360/gon; normalizeAngle(next_face_angle)`, starting from
the current face's (normalised) back angle. -/
def angleIter (current_face_gon : ℤ) (θ : ℚ) : ℕ → ℚ
  | 0 => θ
  | k + 1 => stepAngle current_face_gon (angleIter current_face_gon θ k)

theorem normalizeAngle_window_range (v : ℚ) (h1 : -540 ≤ v) (h2 : v < 180) :
    -180 ≤ normalizeAngle v ∧ normalizeAngle v < 180 := by
  rw [normalizeAngle_window v h1 h2]
  split <;> constructor <;> linarith

theorem normalizeAngle_shift_eq (a b : ℚ) (j : ℤ) (hab : a = b + 360 * j)
    (ha1 : -540 ≤ a) (ha2 : a < 180) (hb1 : -540 ≤ b) (hb2 : b < 180) :
    normalizeAngle a = normalizeAngle b := by
  have hjq1 : (-2 : ℚ) < (j : ℤ) := by
    have : (-720 : ℚ) < 360 * (j : ℤ) := by linarith
    nlinarith
  have hjq2 : ((j : ℤ) : ℚ) < 2 := by
    have : (360 : ℚ) * (j : ℤ) < 720 := by linarith
    nlinarith
  have hj1 : (-2 : ℤ) < j := by exact_mod_cast hjq1
  have hj2 : j < 2 := by exact_mod_cast hjq2
  have hj : j = -1 ∨ j = 0 ∨ j = 1 := by omega
  rcases hj with rfl | rfl | rfl
  · have hab' : a = b - 360 := by push_cast at hab; linarith
    rw [normalizeAngle_window a ha1 ha2, normalizeAngle_window b hb1 hb2]
    rw [if_pos (by linarith), if_neg (by push_neg; linarith)]
    linarith
  · have hab' : a = b := by push_cast at hab; linarith
    rw [hab']
  · have hab' : a = b + 360 := by push_cast at hab; linarith
    rw [normalizeAngle_window a ha1 ha2, normalizeAngle_window b hb1 hb2]
    rw [if_neg (by push_neg; linarith), if_pos (by linarith)]
    linarith

theorem angleIter_spec (n : ℤ) (θ : ℚ) (hn : 3 ≤ n) (hθ1 : -180 ≤ θ) (hθ2 : θ ≤ 180) :
    ∀ k : ℕ, 1 ≤ k → (k : ℤ) ≤ n - 1 →
      angleIter n θ k = normalizeAngle (θ - (k : ℚ) * (360 / (n : ℚ)))
      ∧ -180 ≤ angleIter n θ k ∧ angleIter n θ k < 180 := by
  have hnq : (3 : ℚ) ≤ (n : ℚ) := by exact_mod_cast hn
  have hs0 : 0 < 360 / (n : ℚ) := div_pos (by norm_num) (by linarith)
  have hs120 : 360 / (n : ℚ) ≤ 120 := by
    rw [div_le_iff (by linarith : (0 : ℚ) < (n : ℚ))]
    linarith
  have hns : (n : ℚ) * (360 / (n : ℚ)) = 360 := by
    field_simp
  intro k
  induction k with
  | zero => intro h1; omega
  | succ k ihk =>
    intro h1 hk
    cases Nat.eq_zero_or_pos k with
    | inl hz =>
      subst hz
      have harg1 : -540 ≤ θ - 360 / (n : ℚ) := by linarith
      have harg2 : θ - 360 / (n : ℚ) < 180 := by linarith
      refine ⟨?_, ?_⟩
      · show stepAngle n (angleIter n θ 0) = _
        unfold stepAngle angleIter
        push_cast
        rw [one_mul]
      · have := normalizeAngle_window_range (θ - 360 / (n : ℚ)) harg1 harg2
        exact this
    | inr hpos =>
      have hk' : (k : ℤ) ≤ n - 1 := by
        push_cast at hk ⊢
        omega
      obtain ⟨ihe, ihr1, ihr2⟩ := ihk hpos hk'
      have hstep : angleIter n θ (k + 1) = normalizeAngle (angleIter n θ k - 360 / (n : ℚ)) := by
        show stepAngle n (angleIter n θ k) = _
        unfold stepAngle
        rfl
      obtain ⟨j, hj⟩ := normalizeAngle_congr (θ - (k : ℚ) * (360 / (n : ℚ)))
      have hiter : angleIter n θ k = θ - (k : ℚ) * (360 / (n : ℚ)) + 360 * j := by
        rw [ihe, hj]
      have hkq : ((k : ℕ) : ℚ) + 1 ≤ (n : ℚ) - 1 := by
        have : ((k : ℕ) : ℤ) + 1 ≤ n - 1 := by push_cast at hk ⊢; omega
        exact_mod_cast this
      have hksq : 0 ≤ ((k : ℕ) : ℚ) := by positivity
      have hbound : (((k : ℕ) : ℚ) + 1) * (360 / (n : ℚ)) ≤ 360 - 360 / (n : ℚ) := by
        have h1' : (((k : ℕ) : ℚ) + 1) * (360 / (n : ℚ)) ≤ ((n : ℚ) - 1) * (360 / (n : ℚ)) :=
          mul_le_mul_of_nonneg_right hkq hs0.le
        calc (((k : ℕ) : ℚ) + 1) * (360 / (n : ℚ))
            ≤ ((n : ℚ) - 1) * (360 / (n : ℚ)) := h1'
          _ = (n : ℚ) * (360 / (n : ℚ)) - 360 / (n : ℚ) := by ring
          _ = 360 - 360 / (n : ℚ) := by rw [hns]
      have ha1 : -540 ≤ angleIter n θ k - 360 / (n : ℚ) := by linarith
      have ha2 : angleIter n θ k - 360 / (n : ℚ) < 180 := by linarith
      have hb1 : -540 ≤ θ - (((k : ℕ) : ℚ) + 1) * (360 / (n : ℚ)) := by nlinarith
      have hb2 : θ - (((k : ℕ) : ℚ) + 1) * (360 / (n : ℚ)) < 180 := by nlinarith
      have heq : normalizeAngle (angleIter n θ k - 360 / (n : ℚ))
          = normalizeAngle (θ - (((k : ℕ) : ℚ) + 1) * (360 / (n : ℚ))) := by
        apply normalizeAngle_shift_eq _ _ j _ ha1 ha2 hb1 hb2
        rw [hiter]
        ring
      refine ⟨?_, ?_⟩
      · rw [hstep, heq]
        push_cast
        ring_nf
      · rw [hstep]
        exact normalizeAngle_window_range _ ha1 ha2

/-! ## IOUtil: symmetry detection from the polyhedron name -/

/-- The C-locale whitespace characters skipped by `std::stoi`. -/
def isSpaceC (c : Char) : Bool :=
  c == ' ' || c == '\t' || c == '\n' || c == Char.ofNat 11 || c == Char.ofNat 12 || c == '\r'

/-- Decimal digit test on the character code (48–57). -/
def isDigitC (c : Char) : Bool := 48 ≤ c.toNat && c.toNat ≤ 57

/-- The maximal digit prefix accumulated left to right, as `std::stoi` reads
it after sign handling. -/
def leadNum : List Char → ℕ → ℕ
  | [], acc => acc
  | c :: cs, acc => if isDigitC c then leadNum cs (acc * 10 + (c.toNat - 48)) else acc

/-- Model of `std::stoi` (base 10) on a character list: skip C whitespace, an
optional sign, then a non-empty maximal digit run; `none` models the
`std::invalid_argument` the source catches. -/
def stoiList : List Char → Option ℤ
  | [] => none
  | c :: cs =>
    if isSpaceC c then stoiList cs
    else if c = '+' then
      match cs with
      | d :: _ => if isDigitC d then some ((leadNum cs 0 : ℕ) : ℤ) else none
      | [] => none
    else if c = '-' then
      match cs with
      | d :: _ => if isDigitC d then some (-((leadNum cs 0 : ℕ) : ℤ)) else none
      | [] => none
    else if isDigitC c then some ((leadNum (c :: cs) 0 : ℕ) : ℤ)
    else none

/-- `IOUtil::isSymmetricFromPolyName`: prefix `a`/`p`/`r`, or `s` with
`std::stoi(name.substr(1, 2))` in `[1, 11]` (exceptions give `false`). -/
def isSymmetricFromPolyName (poly_name : List Char) : Bool :=
  match poly_name with
  | [] => false
  | c0 :: rest =>
    if c0 = 'a' ∨ c0 = 'p' ∨ c0 = 'r' then true
    else if 3 ≤ poly_name.length ∧ c0 = 's' then
      match stoiList (rest.take 2) with
      | some num => decide (1 ≤ num ∧ num ≤ 11)
      | none => false
    else false

/-- The predicate exactly as claim C8 words it: prefix `a`, `p` or `r`, or a
name that consists of `s` followed by two digits whose value lies between 01
and 11 inclusive. -/
def namedSymmetricPred (poly_name : List Char) : Bool :=
  match poly_name with
  | [] => false
  | c0 :: _ =>
    if c0 = 'a' ∨ c0 = 'p' ∨ c0 = 'r' then true
    else
      match poly_name with
      | [c, d1, d2] =>
        c = 's' && isDigitC d1 && isDigitC d2 &&
          decide (1 ≤ (d1.toNat - 48) * 10 + (d2.toNat - 48) ∧
            (d1.toNat - 48) * 10 + (d2.toNat - 48) ≤ 11)
      | _ => false

/-- What `isSymmetricFromPolyName` actually computes on the two characters
after a leading `s`, written as an explicit case table. -/
def isSymmetricCases (poly_name : List Char) : Bool :=
  match poly_name with
  | [] => false
  | c0 :: rest =>
    if c0 = 'a' ∨ c0 = 'p' ∨ c0 = 'r' then true
    else if c0 = 's' then
      match rest with
      | c1 :: c2 :: _ =>
        if isSpaceC c1 then
          (if isDigitC c2 then decide (1 ≤ c2.toNat - 48) else false)
        else if c1 = '+' then
          (if isDigitC c2 then decide (1 ≤ c2.toNat - 48) else false)
        else if c1 = '-' then false
        else if isDigitC c1 then
          (if isDigitC c2 then
            decide (1 ≤ (c1.toNat - 48) * 10 + (c2.toNat - 48) ∧
              (c1.toNat - 48) * 10 + (c2.toNat - 48) ≤ 11)
          else decide (1 ≤ c1.toNat - 48))
        else false
      | _ => false
    else false

theorem isSpaceC_not_digit (c : Char) (h : isSpaceC c = true) : isDigitC c = false := by
  unfold isSpaceC at h
  simp only [Bool.or_eq_true, beq_iff_eq] at h
  rcases h with ((((h | h) | h) | h) | h) | h <;> subst h <;> decide

theorem isDigitC_bounds (c : Char) (h : isDigitC c = true) :
    48 ≤ c.toNat ∧ c.toNat ≤ 57 := by
  unfold isDigitC at h
  simp only [Bool.and_eq_true, decide_eq_true_eq] at h
  exact h

theorem isDigitC_not_space (c : Char) (h : isDigitC c = true) : ¬ isSpaceC c = true := by
  intro hsp
  rw [isSpaceC_not_digit c hsp] at h
  cases h

theorem isDigitC_ne_plus (c : Char) (h : isDigitC c = true) : ¬ c = '+' := by
  intro hc
  subst hc
  cases h

theorem isDigitC_ne_minus (c : Char) (h : isDigitC c = true) : ¬ c = '-' := by
  intro hc
  subst hc
  cases h

theorem stoiList_space (c : Char) (cs : List Char) (h : isSpaceC c = true) :
    stoiList (c :: cs) = stoiList cs := by
  simp only [stoiList]
  rw [if_pos h]

theorem stoiList_digit (c : Char) (cs : List Char) (h : isDigitC c = true) :
    stoiList (c :: cs) = some ((leadNum (c :: cs) 0 : ℕ) : ℤ) := by
  simp only [stoiList]
  rw [if_neg (isDigitC_not_space c h), if_neg (isDigitC_ne_plus c h),
    if_neg (isDigitC_ne_minus c h), if_pos h]

theorem stoiList_single_none (c : Char) (hd : ¬ isDigitC c = true) :
    stoiList [c] = none := by
  by_cases hsp : isSpaceC c = true
  · rw [stoiList_space c [] hsp]
    rfl
  · simp only [stoiList]
    rw [if_neg hsp]
    by_cases hp : c = '+'
    · rw [if_pos hp]
    · rw [if_neg hp]
      by_cases hm : c = '-'
      · rw [if_pos hm]
      · rw [if_neg hm, if_neg hd]

theorem leadNum_single (c : Char) (h : isDigitC c = true) :
    leadNum [c] 0 = c.toNat - 48 := by
  simp only [leadNum]
  rw [if_pos h]
  omega

theorem leadNum_pair (c1 c2 : Char) (h1 : isDigitC c1 = true) :
    leadNum [c1, c2] 0 = if isDigitC c2 then (c1.toNat - 48) * 10 + (c2.toNat - 48)
      else c1.toNat - 48 := by
  simp only [leadNum]
  rw [if_pos h1]
  by_cases h2 : isDigitC c2 = true
  · rw [if_pos h2, if_pos h2]
    omega
  · rw [if_neg h2, if_neg h2]
    omega

theorem isSymmetricFromPolyName_cases (s : List Char) :
    isSymmetricFromPolyName s = isSymmetricCases s := by
  match s with
  | [] => rfl
  | c0 :: rest =>
    by_cases hapr : c0 = 'a' ∨ c0 = 'p' ∨ c0 = 'r'
    · simp only [isSymmetricFromPolyName, isSymmetricCases]
      rw [if_pos hapr, if_pos hapr]
    · by_cases hs : c0 = 's'
      · subst hs
        match rest with
        | [] =>
          simp only [isSymmetricFromPolyName, isSymmetricCases]
          rw [if_neg hapr, if_neg hapr, if_neg (by decide : ¬ (3 ≤ (['s'] : List Char).length ∧ True)), if_pos trivial]
        | [c1] =>
          simp only [isSymmetricFromPolyName, isSymmetricCases]
          rw [if_neg hapr, if_neg hapr, if_neg (by simp : ¬ (3 ≤ (['s', c1] : List Char).length ∧ True)), if_pos trivial]
        | c1 :: c2 :: rest2 =>
          have hlen : 3 ≤ ('s' :: c1 :: c2 :: rest2).length ∧ True :=
            ⟨by simp, trivial⟩
          simp only [isSymmetricFromPolyName, isSymmetricCases]
          rw [if_neg hapr, if_neg hapr, if_pos hlen, if_pos trivial]
          show (match stoiList ((c1 :: c2 :: rest2).take 2) with
            | some num => decide (1 ≤ num ∧ num ≤ 11)
            | none => false) = _
          rw [show (c1 :: c2 :: rest2).take 2 = [c1, c2] from rfl]
          by_cases hsp1 : isSpaceC c1 = true
          · rw [if_pos hsp1, stoiList_space c1 [c2] hsp1]
            by_cases hd2 : isDigitC c2 = true
            · rw [if_pos hd2, stoiList_digit c2 [] hd2, leadNum_single c2 hd2]
              show decide _ = _
              have hb := isDigitC_bounds c2 hd2
              apply decide_eq_decide.mpr
              constructor
              · intro ⟨ha, _⟩
                exact_mod_cast ha
              · intro ha
                have h9 : c2.toNat - 48 ≤ 9 := by omega
                exact ⟨by exact_mod_cast ha, by exact_mod_cast by omega⟩
            · rw [if_neg hd2, stoiList_single_none c2 hd2]
          · rw [if_neg hsp1]
            by_cases hp1 : c1 = '+'
            · rw [if_pos hp1]
              subst hp1
              have hred : stoiList ['+', c2]
                  = if isDigitC c2 then some ((leadNum [c2] 0 : ℕ) : ℤ) else none := by
                simp only [stoiList]
                rw [if_neg (by decide), if_pos trivial]
              rw [hred]
              by_cases hd2 : isDigitC c2 = true
              · rw [if_pos hd2, if_pos hd2, leadNum_single c2 hd2]
                have hb := isDigitC_bounds c2 hd2
                apply decide_eq_decide.mpr
                constructor
                · intro ⟨ha, _⟩
                  exact_mod_cast ha
                · intro ha
                  exact ⟨by exact_mod_cast ha, by exact_mod_cast by omega⟩
              · rw [if_neg hd2, if_neg hd2]
            · rw [if_neg hp1]
              by_cases hm1 : c1 = '-'
              · rw [if_pos hm1]
                subst hm1
                have hred : stoiList ['-', c2]
                    = if isDigitC c2 then some (-((leadNum [c2] 0 : ℕ) : ℤ)) else none := by
                  simp only [stoiList]
                  rw [if_neg (by decide), if_neg (by decide), if_pos trivial]
                rw [hred]
                by_cases hd2 : isDigitC c2 = true
                · rw [if_pos hd2]
                  apply decide_eq_false
                  intro ⟨ha, _⟩
                  have hnn : (0 : ℤ) ≤ ((leadNum [c2] 0 : ℕ) : ℤ) := by positivity
                  omega
                · rw [if_neg hd2]
              · rw [if_neg hm1]
                by_cases hd1 : isDigitC c1 = true
                · rw [if_pos hd1, stoiList_digit c1 [c2] hd1, leadNum_pair c1 c2 hd1]
                  have hb1 := isDigitC_bounds c1 hd1
                  by_cases hd2 : isDigitC c2 = true
                  · rw [if_pos hd2, if_pos hd2]
                    have hb2 := isDigitC_bounds c2 hd2
                    apply decide_eq_decide.mpr
                    constructor
                    · intro ⟨ha, hb3⟩
                      exact ⟨by exact_mod_cast ha, by exact_mod_cast hb3⟩
                    · intro ⟨ha, hb3⟩
                      exact ⟨by exact_mod_cast ha, by exact_mod_cast hb3⟩
                  · rw [if_neg hd2, if_neg hd2]
                    apply decide_eq_decide.mpr
                    constructor
                    · intro ⟨ha, _⟩
                      exact_mod_cast ha
                    · intro ha
                      have h9 : c1.toNat - 48 ≤ 9 := by omega
                      exact ⟨by exact_mod_cast ha, by exact_mod_cast by omega⟩
                · rw [if_neg hd1]
                  have : stoiList [c1, c2] = none := by
                    simp only [stoiList]
                    rw [if_neg hsp1, if_neg hp1, if_neg hm1, if_neg hd1]
                  rw [this]
      · have hcond : ¬ (3 ≤ (c0 :: rest).length ∧ c0 = 's') := by
          intro hc
          exact hs hc.2
        simp only [isSymmetricFromPolyName, isSymmetricCases]
        rw [if_neg hapr, if_neg hapr, if_neg hcond, if_neg hs]

/-! ## IOUtil: the polyhedron JSON loader -/

/-- One `neighbors` entry of the parsed JSON: a field is `none` when the
corresponding `contains` check of the source fails. -/
structure JNeighbor where
  edge_id : Option ℤ
  face_id : Option ℤ
deriving DecidableEq

/-- One `faces` entry of the parsed JSON.  `neighbors`: outer `none` means the
key is absent, inner `none` means it is present but not an array. -/
structure JFace where
  face_id : Option ℤ
  gon : Option ℤ
  neighbors : Option (Option (List JNeighbor))
deriving DecidableEq

/-- A parsed `polyhedron.json` document.  `faces`: outer `none` means the key
is absent, inner `none` means it is present but not an array. -/
structure JDoc where
  schema_version : Option ℤ
  faces : Option (Option (List JFace))
deriving DecidableEq

/-- The inner neighbour loop of `loadPolyhedronFromJson`: each entry must
carry `edge_id` and `face_id`, which are pushed onto the two lists. -/
def addNeighbors : List JNeighbor → List ℤ × List ℤ → Option (List ℤ × List ℤ)
  | [], acc => some acc
  | n :: ns, acc =>
    match n.edge_id, n.face_id with
    | some e, some f => addNeighbors ns (acc.1 ++ [e], acc.2 ++ [f])
    | _, _ => none

/-- The face loop of `loadPolyhedronFromJson`: field presence, the
`face_id` range check, `gon_list[face_id] = gon`, and the neighbour pushes. -/
def loadFaces (num : ℕ) : List JFace → Polyhedron → Option Polyhedron
  | [], poly => some poly
  | fo :: fs, poly =>
    match fo.face_id, fo.gon, fo.neighbors with
    | some fid, some gon, some nbrs_val =>
      if fid < 0 ∨ (num : ℤ) ≤ fid then none
      else
        match nbrs_val with
        | none => none
        | some nbrs =>
          match addNeighbors nbrs ([], []) with
          | none => none
          | some efs =>
            loadFaces num fs
              { poly with
                gon_list := poly.gon_list.set fid.toNat gon
                adj_edges := poly.adj_edges.set fid.toNat
                  (vecGet poly.adj_edges fid [] ++ efs.1)
                adj_faces := poly.adj_faces.set fid.toNat
                  (vecGet poly.adj_faces fid [] ++ efs.2) }
    | _, _, _ => none

/-- `IOUtil::loadPolyhedronFromJson` on an already-parsed document: validate
`schema_version == 1` and the `faces` array, then run the face loop starting
from the `resize`d (default-initialised) polyhedron.  `none` models
`return false`. -/
def loadPolyhedronFromJson (j : JDoc) : Option Polyhedron :=
  if j.schema_version = some 1 then
    match j.faces with
    | some (some faces_array) =>
      let num := faces_array.length
      loadFaces num faces_array
        { num_faces := num
          gon_list := List.replicate num 0
          adj_edges := List.replicate num []
          adj_faces := List.replicate num [] }
    | _ => none
  else none

/-- Every neighbour entry carries both fields. -/
def neighborsWF (l : List JNeighbor) : Bool :=
  l.all fun n => n.edge_id.isSome && n.face_id.isSome

/-- One face entry is acceptable to the loader: all three fields present,
`neighbors` an array of well-formed entries, `face_id` in `[0, num)`. -/
def faceWF (num : ℕ) (f : JFace) : Bool :=
  match f.face_id, f.gon, f.neighbors with
  | some fid, some _, some (some nbrs) =>
    decide (0 ≤ fid ∧ fid < (num : ℤ)) && neighborsWF nbrs
  | _, _, _ => false

/-- Exactly the checks `loadPolyhedronFromJson` performs: schema version 1, a
`faces` array, and per-face field/range well-formedness — and nothing else
(in particular no reciprocity check on the adjacency). -/
def jsonWellFormed (j : JDoc) : Bool :=
  decide (j.schema_version = some 1) &&
  match j.faces with
  | some (some faces_array) => faces_array.all (faceWF faces_array.length)
  | _ => false

/-- The reciprocity / edge-membership condition the spec asserts is checked at
load time (spec-modelled; the source has no such check): for every face `f`
and slot `i`, the neighbour `g` across edge `e` lists `e` itself
(`getEdgeIndex ≥ 0`) and names `f` back at that position. -/
def reciprocalB (P : Polyhedron) : Bool :=
  (List.range P.num_faces).all fun f =>
    (List.range (vecGet P.adj_edges (f : ℤ) []).length).all fun i =>
      let e := vecGet (vecGet P.adj_edges (f : ℤ) []) (i : ℤ) 0
      let g := vecGet (vecGet P.adj_faces (f : ℤ) []) (i : ℤ) 0
      let idx := P.getEdgeIndex g e
      decide (0 ≤ idx) && (vecGet (vecGet P.adj_faces g []) idx 0 == (f : ℤ))

theorem addNeighbors_isSome (ns : List JNeighbor) :
    ∀ acc, (addNeighbors ns acc).isSome = neighborsWF ns := by
  induction ns with
  | nil => intro acc; rfl
  | cons n ns ih =>
    intro acc
    simp only [addNeighbors, neighborsWF, List.all_cons]
    match he : n.edge_id, hf : n.face_id with
    | some e, some f =>
      rw [ih]
      simp [neighborsWF]
    | some e, none => simp
    | none, some f => simp
    | none, none => simp

theorem loadFaces_isSome (num : ℕ) (fs : List JFace) :
    ∀ poly, (loadFaces num fs poly).isSome = fs.all (faceWF num) := by
  induction fs with
  | nil => intro poly; rfl
  | cons fo fs ih =>
    intro poly
    simp only [loadFaces, List.all_cons]
    match hfi : fo.face_id, hg : fo.gon, hn : fo.neighbors with
    | some fid, some gon, some nbrs_val =>
      dsimp only
      by_cases hr : fid < 0 ∨ (num : ℤ) ≤ fid
      · rw [if_pos hr]
        have : faceWF num fo = false := by
          unfold faceWF
          rw [hfi, hg, hn]
          match nbrs_val with
          | none => rfl
          | some nbrs =>
            have : ¬ (0 ≤ fid ∧ fid < (num : ℤ)) := by omega
            simp [this]
        rw [this]
        rfl
      · rw [if_neg hr]
        match nbrs_val with
        | none =>
          have : faceWF num fo = false := by
            unfold faceWF
            rw [hfi, hg, hn]
          rw [this]
          rfl
        | some nbrs =>
          dsimp only
          have hface : faceWF num fo
              = (decide (0 ≤ fid ∧ fid < (num : ℤ)) && neighborsWF nbrs) := by
            unfold faceWF
            rw [hfi, hg, hn]
          have hrange : (0 ≤ fid ∧ fid < (num : ℤ)) := by omega
          match ha : addNeighbors nbrs ([], []) with
          | none =>
            have hwf : neighborsWF nbrs = false := by
              have := addNeighbors_isSome nbrs ([], [])
              rw [ha] at this
              exact this.symm
            rw [hface, hwf]
            simp
          | some efs =>
            have hwf : neighborsWF nbrs = true := by
              have := addNeighbors_isSome nbrs ([], [])
              rw [ha] at this
              exact this.symm
            dsimp only
            rw [hface, hwf, ih]
            simp [hrange]
    | some fid, some gon, none =>
      have : faceWF num fo = false := by
        unfold faceWF
        rw [hfi, hg, hn]
      rw [this]
      rfl
    | some fid, none, _ =>
      have : faceWF num fo = false := by
        unfold faceWF
        rw [hfi, hg]
      rw [this]
      rfl
    | none, _, _ =>
      have : faceWF num fo = false := by
        unfold faceWF
        rw [hfi]
      rw [this]
      rfl

theorem loadPolyhedronFromJson_isSome (j : JDoc) :
    (loadPolyhedronFromJson j).isSome = jsonWellFormed j := by
  unfold loadPolyhedronFromJson jsonWellFormed
  by_cases hs : j.schema_version = some 1
  · rw [if_pos hs]
    simp only [hs, decide_eq_true_eq]
    match hf : j.faces with
    | some (some faces_array) =>
      rw [loadFaces_isSome]
      simp
    | some none => simp
    | none => simp
  · rw [if_neg hs]
    simp [hs]

/-! ## Concrete instances used by the witnesses -/

/-- A concrete numeric library: `sin` and `tan` constantly `1/2` (so both
radii are `1`), `cos` constantly `1`, `sqrt` constantly `0`. -/
def F0 : FloatOps := ⟨fun _ => 1/2, fun _ => 1, fun _ => 1/2, fun _ => 0⟩

/-- A two-face polyhedron (two triangles glued along all three edges). -/
def P2 : Polyhedron :=
  { num_faces := 2
    gon_list := [3, 3]
    adj_edges := [[0, 1, 2], [0, 2, 1]]
    adj_faces := [[1, 1, 1], [0, 0, 0]] }

theorem circ_F0 (g : ℤ) : circumradius F0 g = 1 := by
  norm_num [circumradius, F0]

theorem inr_F0 (g : ℤ) : inradius F0 g = 1 := by
  norm_num [inradius, F0]

theorem dist_F0 (x y : ℚ) : getDistanceFromOrigin F0 x y = 0 := rfl

theorem snap_two : snap 2 = 2 := by norm_num [snap]

theorem normalizeAngle_neg180 : normalizeAngle (-180) = -180 := by
  rw [normalizeAngle_window (-180) (by norm_num) (by norm_num)]
  norm_num

theorem getSecond_eval (se ym : Bool) :
    getSecondFaceState F0 P2 0 0 se ym = ⟨1, 0, 2, 0, -180, 2, se, ym⟩ := by
  have hrange : List.range P2.num_faces = [0, 1] := by decide
  have hedge : P2.getEdgeIndex 0 0 = 0 := by decide
  have hfa : vecGet (vecGet P2.adj_faces 0 []) 0 0 = 1 := by decide
  have hfe : vecGet (vecGet P2.adj_edges 0 []) 0 0 = 0 := by decide
  simp only [getSecondFaceState, hrange, hedge, hfa, hfe, List.foldl]
  rw [if_neg (by decide : ¬ (((0 : ℕ) : ℤ) ≠ 0)), if_pos (by decide : ((1 : ℕ) : ℤ) ≠ 0)]
  rw [circ_F0, inr_F0, inr_F0]
  norm_num [FaceState.mk.injEq]

theorem childLoop_eval (rec : FaceState → List Bool → List UnfoldedFace → SearchResult)
    (st' : FaceState) (hface : st'.face_id = 1) (angle : ℚ)
    (p : List UnfoldedFace) (recs : List JsonlRecord) :
    childLoopAux F0 P2 rec st' 3 0 [0, 1] angle [false, false] p recs
      = some (recs, [false, false], p) := by
  have h0 : usageGet [false, false]
      (vecGet (vecGet P2.adj_faces 1 []) ((0 + 1 + ((0 : ℕ) : ℤ)) % 3) 0) = false := by
    decide
  have h1 : usageGet [false, false]
      (vecGet (vecGet P2.adj_faces 1 []) ((0 + 1 + ((1 : ℕ) : ℤ)) % 3) 0) = false := by
    decide
  simp only [childLoopAux, hface]
  rw [if_pos h0, if_pos h1]

theorem search_eval (symU ymo : Bool) :
    searchPartialUnfoldings F0 P2 0 0 symU 3
      ⟨1, 0, 2, 0, -180, 2, symU, ymo⟩ [false, true] [⟨0, 3, 0, 0, 0, 0⟩]
    = some ([⟨0, 0, symU, [⟨0, 3, 0, 0, 0, 0⟩, ⟨1, 3, 0, 2, 0, -180⟩]⟩],
        [false, true], [⟨0, 3, 0, 0, 0, 0⟩]) := by
  rw [show (3 : ℕ) = 2 + 1 from rfl, searchPartialUnfoldings_succ]
  simp only [searchBody]
  have hgon1 : vecGet P2.gon_list 1 0 = 3 := by decide
  have hgon0 : vecGet P2.gon_list 0 0 = 3 := by decide
  have hedge : P2.getEdgeIndex 1 0 = 0 := by decide
  have huse : usageSet [false, true] 1 false = [false, false] := by decide
  rw [hgon1, hgon0, hedge, huse, dist_F0, snap_zero, normalizeAngle_neg180, circ_F0]
  rw [if_neg (by norm_num [buffer] : ¬ ((0 : ℚ) > 2 - 2 * 1 + 1 + 1 + buffer))]
  rw [if_neg (fun hc => absurd hc.2.2 (lt_irrefl (0 : ℚ)))]
  rw [if_pos (by norm_num [buffer] : (0 : ℚ) < 1 + 1 + buffer)]
  rw [show List.range ((3 : ℤ) - 1).toNat = [0, 1] from by decide]
  rw [childLoop_eval _ _ rfl]
  dsimp only
  rw [show usageSet [false, false] 1 true = [false, true] from by decide,
    List.dropLast_concat]
  simp only [List.singleton_append]

theorem runRot_eval (symU ymo : Bool) :
    runRotationalUnfolding F0 P2 0 0 symU ymo 3
      = some ([⟨0, 0, symU, [⟨0, 3, 0, 0, 0, 0⟩, ⟨1, 3, 0, 2, 0, -180⟩]⟩],
          [false, true], [⟨0, 3, 0, 0, 0, 0⟩]) := by
  simp only [runRotationalUnfolding]
  rw [getSecond_eval,
    show usageSet (List.replicate P2.num_faces true) 0 false = [false, true] from by decide,
    show vecGet P2.gon_list 0 0 = 3 from by decide]
  exact search_eval symU ymo

theorem runRecords_eval (symU ymo : Bool) :
    runRecords F0 P2 0 0 symU ymo 3
      = [⟨0, 0, symU, [⟨0, 3, 0, 0, 0, 0⟩, ⟨1, 3, 0, 2, 0, -180⟩]⟩] := by
  unfold runRecords
  rw [runRot_eval]

/-! ## The claims -/

/-- C1: for every polyhedron, root pair, symmetry setting and fuel, every
record emitted by the E1 search has a last face whose snapped centre lies
strictly within `circumradius(base gon) + circumradius(last gon) + buffer`
of the origin. -/
theorem C1_distance_gate (F : FloatOps) (P : Polyhedron) (bF bE : ℤ)
    (symU ymo : Bool) (fuel : ℕ) (r : JsonlRecord)
    (hr : r ∈ runRecords F P bF bE symU ymo fuel) :
    ∃ lf : UnfoldedFace, r.faces.getLast? = some lf ∧
      getDistanceFromOrigin F (snap lf.x) (snap lf.y) <
        circumradius F (vecGet P.gon_list bF 0) + circumradius F lf.gon + buffer := by
  unfold runRecords at hr
  rcases hrun : runRotationalUnfolding F P bF bE symU ymo fuel with _ | out
  · rw [hrun] at hr
    cases hr
  · rw [hrun] at hr
    obtain ⟨recs, u, p⟩ := out
    exact search_records_gate F P bF bE symU fuel _ _ _ _ hrun r hr

theorem C1_distance_gate_witness :
    ∃ lf : UnfoldedFace,
      (⟨0, 0, false, [⟨0, 3, 0, 0, 0, 0⟩, ⟨1, 3, 0, 2, 0, -180⟩]⟩ :
          JsonlRecord).faces.getLast? = some lf ∧
      getDistanceFromOrigin F0 (snap lf.x) (snap lf.y) <
        circumradius F0 (vecGet P2.gon_list 0 0) + circumradius F0 lf.gon + buffer :=
  C1_distance_gate F0 P2 0 0 false false 3 _
    (by rw [runRecords_eval]; exact List.mem_singleton.mpr rfl)

theorem search_flag (F : FloatOps) (P : Polyhedron) (bF bE : ℤ) (symU : Bool) :
    ∀ (fuel : ℕ) (st : FaceState) (u : List Bool) (p : List UnfoldedFace) out,
      searchPartialUnfoldings F P bF bE symU fuel st u p = some out →
      ∀ r ∈ out.1, r.symmetric_used = symU := by
  intro fuel
  induction fuel with
  | zero => intro st u p out h; cases h
  | succ n ih =>
    intro st u p out h
    rw [searchPartialUnfoldings_succ] at h
    simp only [searchBody] at h
    split at h
    · cases h; intro r hr; cases hr
    · split at h
      · cases h; intro r hr; cases hr
      · split at h
        · cases h
        · rename_i out2 hc
          cases h
          intro r hr
          have h2 := childLoopAux_records F P _ _ _ _ (fun r => r.symmetric_used = symU)
            (fun st2 uu pp oo hrr => ih st2 uu pp oo hrr) _ _ _ _ _ _ hc
          refine h2 ?_ r hr
          intro r2 hr2
          split at hr2
          · rcases List.mem_singleton.mp hr2 with rfl
            rfl
          · cases hr2

theorem noNegFirst_single (c : UnfoldedFace) (h : ¬ snap c.y < 0) : NoNegFirst [c] := by
  intro i hneg
  rcases i with ⟨iv, hi⟩
  have hi1 : iv < 1 := by simpa using hi
  have hz : iv = 0 := by omega
  subst hz
  exact absurd hneg h

/-- C2: with symmetry pruning enabled for a root (so every emitted record has
`symmetric_used = true`), no emitted record places a face with (snapped)
negative `y` before every face with (snapped) positive `y`: the
`y_moved_off_axis` flag starts `true` and the pruning branch abandons any
subtree that would break the invariant before emission. -/
theorem C2_symmetry_no_negative_first (F : FloatOps) (P : Polyhedron) (bF bE : ℤ)
    (fuel : ℕ) (r : JsonlRecord) (hr : r ∈ runRecords F P bF bE true true fuel) :
    r.symmetric_used = true ∧ NoNegFirst r.faces := by
  unfold runRecords at hr
  rcases hrun : runRotationalUnfolding F P bF bE true true fuel with _ | out
  · rw [hrun] at hr
    cases hr
  · rw [hrun] at hr
    obtain ⟨recs, u, p⟩ := out
    constructor
    · exact search_flag F P bF bE true fuel _ _ _ _ hrun r hr
    · refine search_sym F P bF bE true fuel _ _ _ _ hrun rfl ?_ ?_ r hr
      · constructor
        · intro h
          cases h
        · rintro ⟨f, hf, hpos⟩
          rcases List.mem_singleton.mp hf with rfl
          rw [show (⟨bF, vecGet P.gon_list bF 0, bE, 0, 0, 0⟩ : UnfoldedFace).y
              = 0 from rfl, snap_zero] at hpos
          exact absurd hpos (lt_irrefl 0)
      · refine noNegFirst_single _ ?_
        rw [show (⟨bF, vecGet P.gon_list bF 0, bE, 0, 0, 0⟩ : UnfoldedFace).y
            = 0 from rfl, snap_zero]
        exact lt_irrefl 0

theorem C2_symmetry_no_negative_first_witness :
    (⟨0, 0, true, [⟨0, 3, 0, 0, 0, 0⟩, ⟨1, 3, 0, 2, 0, -180⟩]⟩ :
        JsonlRecord).symmetric_used = true ∧
    NoNegFirst (⟨0, 0, true, [⟨0, 3, 0, 0, 0, 0⟩, ⟨1, 3, 0, 2, 0, -180⟩]⟩ :
        JsonlRecord).faces :=
  C2_symmetry_no_negative_first F0 P2 0 0 3 _
    (by rw [runRecords_eval]; exact List.mem_singleton.mpr rfl)

/-- C3: the geometric placement follows the spec's formulas: the second
face's centre is at `(inradius(n_base) + inradius(n_second), 0)` with
`angle_deg` initialised to `-180`; after `k` child-loop angle updates
(`k = 1 .. n-1`) the outgoing direction equals the closed form
`normalizeAngle (θ - k·(360/n))` and lies in `[-180, 180)`; and the next
face's centre is the current centre displaced by the sum of the two inradii
in direction `φ` (via `cos`/`sin` of `φ·π/180`), with back-angle `φ - 180`. -/
theorem C3_placement_formulas (F : FloatOps) (P : Polyhedron) (bF bE : ℤ)
    (se ym : Bool) (n : ℤ) (θ : ℚ) (hn : 3 ≤ n) (hθ1 : -180 ≤ θ) (hθ2 : θ ≤ 180)
    (st : FaceState) (g nf ne : ℤ) (φ : ℚ) :
    ((getSecondFaceState F P bF bE se ym).x
        = inradius F (vecGet P.gon_list bF 0)
          + inradius F (vecGet P.gon_list
              (vecGet (vecGet P.adj_faces bF []) (P.getEdgeIndex bF bE) 0) 0)
      ∧ (getSecondFaceState F P bF bE se ym).y = 0
      ∧ (getSecondFaceState F P bF bE se ym).angle = -180)
    ∧ (∀ k : ℕ, 1 ≤ k → (k : ℤ) ≤ n - 1 →
        angleIter n θ k = normalizeAngle (θ - (k : ℚ) * (360 / (n : ℚ)))
          ∧ -180 ≤ angleIter n θ k ∧ angleIter n θ k < 180)
    ∧ ((nextFaceState F P st g φ nf ne).x
          = st.x + (inradius F g + inradius F (vecGet P.gon_list nf 0))
              * F.cos (φ * PIq / 180)
      ∧ (nextFaceState F P st g φ nf ne).y
          = st.y + (inradius F g + inradius F (vecGet P.gon_list nf 0))
              * F.sin (φ * PIq / 180)
      ∧ (nextFaceState F P st g φ nf ne).angle = φ - 180) :=
  ⟨⟨rfl, rfl, rfl⟩, angleIter_spec n θ hn hθ1 hθ2, rfl, rfl, rfl⟩

theorem C3_placement_formulas_witness :
    ((getSecondFaceState F0 P2 0 0 false false).x
        = inradius F0 (vecGet P2.gon_list 0 0)
          + inradius F0 (vecGet P2.gon_list
              (vecGet (vecGet P2.adj_faces 0 []) (P2.getEdgeIndex 0 0) 0) 0)
      ∧ (getSecondFaceState F0 P2 0 0 false false).y = 0
      ∧ (getSecondFaceState F0 P2 0 0 false false).angle = -180)
    ∧ (∀ k : ℕ, 1 ≤ k → (k : ℤ) ≤ 3 - 1 →
        angleIter 3 (-180) k = normalizeAngle (-180 - (k : ℚ) * (360 / ((3 : ℤ) : ℚ)))
          ∧ -180 ≤ angleIter 3 (-180) k ∧ angleIter 3 (-180) k < 180)
    ∧ ((nextFaceState F0 P2 ⟨1, 0, 2, 0, -180, 0, false, false⟩ 3 60 0 0).x
          = (⟨1, 0, 2, 0, -180, 0, false, false⟩ : FaceState).x
            + (inradius F0 3 + inradius F0 (vecGet P2.gon_list 0 0))
              * F0.cos (60 * PIq / 180)
      ∧ (nextFaceState F0 P2 ⟨1, 0, 2, 0, -180, 0, false, false⟩ 3 60 0 0).y
          = (⟨1, 0, 2, 0, -180, 0, false, false⟩ : FaceState).y
            + (inradius F0 3 + inradius F0 (vecGet P2.gon_list 0 0))
              * F0.sin (60 * PIq / 180)
      ∧ (nextFaceState F0 P2 ⟨1, 0, 2, 0, -180, 0, false, false⟩ 3 60 0 0).angle
          = 60 - 180) :=
  C3_placement_formulas F0 P2 0 0 false false 3 (-180)
    (by norm_num) (by norm_num) (by norm_num)
    ⟨1, 0, 2, 0, -180, 0, false, false⟩ 3 0 0 60

theorem getD_replicate_true : ∀ (n m : ℕ), (List.replicate n true).getD m true = true := by
  intro n
  induction n with
  | zero => intro m; rfl
  | succ k ih =>
    intro m
    cases m with
    | zero => rfl
    | succ m2 =>
      rw [List.replicate_succ, List.getD_cons_succ]
      exact ih m2

/-- C4: for every run whose polyhedron has valid adjacency indices and whose
second face differs from the base face, every emitted record has a non-empty
`faces` sequence with pairwise distinct `face_id`s: the base face is marked
used at the start, every face on the path is marked used before its children
are explored, and used faces are never descended into. -/
theorem C4_records_nodup (F : FloatOps) (P : Polyhedron) (bF bE : ℤ)
    (symU ymo : Bool) (fuel : ℕ) (hA : AdjValid P) (hpos : 0 < P.num_faces)
    (hbF2 : bF.toNat < P.num_faces)
    (hsnd : (getSecondFaceState F P bF bE symU ymo).face_id.toNat ≠ bF.toNat)
    (r : JsonlRecord) (hr : r ∈ runRecords F P bF bE symU ymo fuel) :
    r.faces ≠ [] ∧ (r.faces.map UnfoldedFace.face_id).Nodup := by
  unfold runRecords at hr
  rcases hrun : runRotationalUnfolding F P bF bE symU ymo fuel with _ | out
  · rw [hrun] at hr
    cases hr
  · rw [hrun] at hr
    obtain ⟨recs, u, p⟩ := out
    have hvalid := adjEntry_valid P hA hpos bF (P.getEdgeIndex bF bE)
    refine search_nodup F P bF bE symU hA hpos fuel _ _ _ _ hrun ?_ hvalid.1 hvalid.2
      ?_ ?_ ?_ r hr
    · unfold usageSet
      rw [List.length_set, List.length_replicate]
    · show ((List.replicate P.num_faces true).set
        (Int.toNat bF) false).getD
          (getSecondFaceState F P bF bE symU ymo).face_id.toNat true = true
      rw [getD_set_ne _ _ _ _ _ (fun hc => hsnd hc.symm)]
      exact getD_replicate_true _ _
    · intro f hf
      rcases List.mem_singleton.mp hf with rfl
      show ((List.replicate P.num_faces true).set (Int.toNat bF) false).getD
          bF.toNat true = false
      exact getD_set_self _ _ _ (by rw [List.length_replicate]; exact hbF2)
    · simp

theorem C4_records_nodup_witness :
    (⟨0, 0, false, [⟨0, 3, 0, 0, 0, 0⟩, ⟨1, 3, 0, 2, 0, -180⟩]⟩ :
        JsonlRecord).faces ≠ [] ∧
    ((⟨0, 0, false, [⟨0, 3, 0, 0, 0, 0⟩, ⟨1, 3, 0, 2, 0, -180⟩]⟩ :
        JsonlRecord).faces.map UnfoldedFace.face_id).Nodup :=
  C4_records_nodup F0 P2 0 0 false false 3 (by unfold AdjValid; decide) (by decide)
    (by decide) (by decide) _
    (by rw [runRecords_eval]; exact List.mem_singleton.mpr rfl)

/-- C5: the numeric fields of one `faces` entry are written from the value
rounded to six decimals with ties away from zero (`roundTo6Decimals` agrees
with the half-away-from-zero rounding), the angle is normalised into
`[-180, 180]` before rounding, and each printed value is an exact integer
number of millionths, which the six-fractional-digit fixed-point rendering
represents exactly. -/
theorem C5_rounding_six_decimals (x y angle : ℚ) :
    (writeFaceNumbers x y angle).1 = roundHalfAwayFromZero6 x
    ∧ (writeFaceNumbers x y angle).2.1 = roundHalfAwayFromZero6 y
    ∧ (writeFaceNumbers x y angle).2.2 = roundHalfAwayFromZero6 (normalizeAngle angle)
    ∧ -180 ≤ normalizeAngle angle ∧ normalizeAngle angle ≤ 180
    ∧ (∃ nx : ℤ, (writeFaceNumbers x y angle).1 = (nx : ℚ) / 1000000)
    ∧ (∃ ny : ℤ, (writeFaceNumbers x y angle).2.1 = (ny : ℚ) / 1000000)
    ∧ (∃ na : ℤ, (writeFaceNumbers x y angle).2.2 = (na : ℚ) / 1000000) :=
  ⟨roundTo6Decimals_eq_halfAway x, roundTo6Decimals_eq_halfAway y,
    roundTo6Decimals_eq_halfAway _, (normalizeAngle_bounds angle).1,
    (normalizeAngle_bounds angle).2, roundTo6Decimals_millionths x,
    roundTo6Decimals_millionths y, roundTo6Decimals_millionths _⟩

/-- Refutation of the literal subset claim: the record of the symmetric run
carries `symmetric_used = true` in its JSONL line, so it is not literally
among the records of the non-symmetric run, whose lines carry
`symmetric_used = false`. -/
theorem C6_counterexample :
    ∃ r ∈ runRecords F0 P2 0 0 true true 3, r ∉ runRecords F0 P2 0 0 false false 3 := by
  refine ⟨⟨0, 0, true, [⟨0, 3, 0, 0, 0, 0⟩, ⟨1, 3, 0, 2, 0, -180⟩]⟩, ?_, ?_⟩
  · rw [runRecords_eval]
    exact List.mem_singleton.mpr rfl
  · rw [runRecords_eval]
    intro hc
    have h := List.mem_singleton.mp hc
    have := congrArg JsonlRecord.symmetric_used h
    cases this

/-- C6 (amended): for the same polyhedron and root pair, every record the
symmetric run emits is, after resetting the `symmetric_used` flag to the
`off` value, among the records the non-symmetric run emits: symmetry pruning
only removes whole subtrees and changes nothing but that flag about the
surviving records. -/
theorem C6_subset_modulo_flag (F : FloatOps) (P : Polyhedron) (bF bE : ℤ)
    (ymOn ymOff : Bool) (fuel : ℕ)
    (outOn outOff : List JsonlRecord × List Bool × List UnfoldedFace)
    (hOn : runRotationalUnfolding F P bF bE true ymOn fuel = some outOn)
    (hOff : runRotationalUnfolding F P bF bE false ymOff fuel = some outOff)
    (r : JsonlRecord) (hr : r ∈ outOn.1) : stripSym r ∈ outOff.1 := by
  unfold runRotationalUnfolding at hOn hOff
  exact search_subset F P bF bE fuel _ ymOff _ _ _ _ hOn hOff r hr

theorem C6_subset_modulo_flag_witness :
    stripSym (⟨0, 0, true, [⟨0, 3, 0, 0, 0, 0⟩, ⟨1, 3, 0, 2, 0, -180⟩]⟩ : JsonlRecord)
      ∈ (([⟨0, 0, false, [⟨0, 3, 0, 0, 0, 0⟩, ⟨1, 3, 0, 2, 0, -180⟩]⟩],
          [false, true], [⟨0, 3, 0, 0, 0, 0⟩]) :
            List JsonlRecord × List Bool × List UnfoldedFace).1 :=
  C6_subset_modulo_flag F0 P2 0 0 true false 3 _ _
    (runRot_eval true true) (runRot_eval false false) _
    (List.mem_singleton.mpr rfl)

/-- Refutation of C7: a polyhedron whose adjacency is not reciprocal (face 0
lists edge 0 towards face 1, but face 1 lists edge 5 towards face 0, and
edge 0 is missing from face 1's edge list) is loaded successfully — the
loader reports no error, so the search would begin. -/
theorem C7_counterexample :
    loadPolyhedronFromJson
        ⟨some 1, some (some
          [⟨some 0, some 3, some (some [⟨some 0, some 1⟩])⟩,
           ⟨some 1, some 3, some (some [⟨some 5, some 0⟩])⟩])⟩
      = some ⟨2, [3, 3], [[0], [5]], [[1], [0]]⟩
    ∧ reciprocalB ⟨2, [3, 3], [[0], [5]], [[1], [0]]⟩ = false := by
  constructor
  · decide
  · decide

/-- C7 (amended): the loader accepts a parsed document exactly when
`schema_version` is `1`, `faces` is an array, and every face object carries
`face_id`, `gon` and an array of two-field `neighbors` with `face_id` in
range — structural consistency of the adjacency (reciprocity, edge
membership) is not checked at load time. -/
theorem C7_loader_accepts_iff_wellformed (j : JDoc) :
    (loadPolyhedronFromJson j).isSome = jsonWellFormed j :=
  loadPolyhedronFromJson_isSome j

/-- Refutation of C8: the name `s1x` is reported symmetric by the source
(`std::stoi("1x")` greedily parses `1`, which lies in `[1, 11]`), although it
is not `s` followed by two digits forming a value in `[01, 11]`. -/
theorem C8_counterexample :
    isSymmetricFromPolyName ['s', '1', 'x'] = true
    ∧ namedSymmetricPred ['s', '1', 'x'] = false := by
  constructor
  · decide
  · decide

/-- C8 (amended): the auto symmetry resolution returns `true` exactly on
prefix `a`/`p`/`r`, or on `s` followed by at least two characters whose
leading portion parses under `std::stoi` semantics (optional whitespace or
`+`, then greedy digits) to a value in `[1, 11]` — the explicit case table
`isSymmetricCases`, which differs from the two-digit reading for names such
as `s1x`, `s 5…` or `s+9…`. -/
theorem C8_auto_symmetry_cases (s : List Char) :
    isSymmetricFromPolyName s = isSymmetricCases s :=
  isSymmetricFromPolyName_cases s

/-- C9: every successful search call restores its shared scratch: when the
current face was unused at entry the returned `face_usage` equals the one at
entry, and the returned path (`unfolding_sequence`) always equals the one at
entry — on every exit path, pruning branches included — so the next root
pair starts from an unmodified state. -/
theorem C9_scratch_restored (F : FloatOps) (P : Polyhedron) (bF bE : ℤ)
    (symU : Bool) (fuel : ℕ) (st : FaceState) (u : List Bool)
    (p : List UnfoldedFace) (out : List JsonlRecord × List Bool × List UnfoldedFace)
    (h : searchPartialUnfoldings F P bF bE symU fuel st u p = some out)
    (hused : usageGet u st.face_id = true) :
    out.2.1 = u ∧ out.2.2 = p := by
  have hf := search_frame F P bF bE symU fuel st u p out h
  exact ⟨hf.2 hused, hf.1⟩

theorem C9_scratch_restored_witness :
    (([⟨0, 0, false, [⟨0, 3, 0, 0, 0, 0⟩, ⟨1, 3, 0, 2, 0, -180⟩]⟩],
        [false, true], [⟨0, 3, 0, 0, 0, 0⟩]) :
          List JsonlRecord × List Bool × List UnfoldedFace).2.1 = [false, true]
    ∧ (([⟨0, 0, false, [⟨0, 3, 0, 0, 0, 0⟩, ⟨1, 3, 0, 2, 0, -180⟩]⟩],
        [false, true], [⟨0, 3, 0, 0, 0, 0⟩]) :
          List JsonlRecord × List Bool × List UnfoldedFace).2.2
        = [⟨0, 3, 0, 0, 0, 0⟩] :=
  C9_scratch_restored F0 P2 0 0 false 3 ⟨1, 0, 2, 0, -180, 2, false, false⟩
    [false, true] [⟨0, 3, 0, 0, 0, 0⟩] _ (search_eval false false) (by decide)

/-- C10: for every polyhedron whose `adj_faces` entries are valid face
indices and every in-range starting state, fuel equal to the number of
still-unused faces makes the recursive search return (it never runs out):
each call marks an unused face used before recursing, so the recursion depth
is bounded by the unused count. -/
theorem C10_search_terminates (F : FloatOps) (P : Polyhedron) (bF bE : ℤ)
    (symU : Bool) (hA : AdjValid P) (hpos : 0 < P.num_faces)
    (fuel : ℕ) (st : FaceState) (u : List Bool) (p : List UnfoldedFace)
    (hlen : u.length = P.num_faces) (h0 : 0 ≤ st.face_id)
    (hb : st.face_id.toNat < P.num_faces) (hused : usageGet u st.face_id = true)
    (hfuel : u.count true ≤ fuel) :
    (searchPartialUnfoldings F P bF bE symU fuel st u p).isSome = true := by
  obtain ⟨out, hout⟩ :=
    search_fuel F P bF bE symU hA hpos fuel st u p hlen h0 hb hused hfuel
  rw [hout]
  rfl

theorem C10_search_terminates_witness :
    (searchPartialUnfoldings F0 P2 0 0 false 3
      ⟨1, 0, 2, 0, -180, 2, false, false⟩ [false, true]
      [⟨0, 3, 0, 0, 0, 0⟩]).isSome = true :=
  C10_search_terminates F0 P2 0 0 false (by unfold AdjValid; decide) (by decide)
    3 ⟨1, 0, 2, 0, -180, 2, false, false⟩ [false, true] [⟨0, 3, 0, 0, 0, 0⟩]
    (by decide) (by decide) (by decide) (by decide) (by decide)
